import Mathlib

/-!
Verification development for the `seed_db_agent` repository.

The definitions below are a shallow embedding of the Python sources:
  * `src/rag_agent/storage.py`  (canonical_site, upsert_org, upsert_project)
  * `src/rag_agent/models.py`   (Metrics.push_window, Metrics.frontier_new_ratio)
  * `src/rag_agent/llm.py`      (_normalize_reflect_payload)
  * `src/rag_agent/fetch.py`    (the reveal sequence of fetch_page and its helpers,
                                 _wire_popup_window_autoclose)
and, where the repository only declares the data model but does not contain the
crawl loop itself, a model built from the specification (marked `Modelled from
the spec:` on the definition).

Python `Optional[str]` is `Option String`; Python string truthiness is
`truthyO` / nonemptiness; fallible awaits of the browser automation layer are
oracles of type `Except Unit α` supplied by a behaviour structure, so that an
unguarded await propagates an error while a guarded one collapses to a default.
-/

/-- Python truthiness of an `Optional[str]`: `None` and `""` are falsy. -/
def truthyO : Option String → Bool
  | none => false
  | some s => s != ""

/-- Python `x or ""` for an `Optional[str]` (used as `o.get(k) or ""`). -/
def strOf : Option String → String
  | none => ""
  | some s => s

/-- Characters stripped by Python `str.strip()` (whitespace). -/
def wsChar (c : Char) : Bool := c.isWhitespace

/-- `str.strip()` on the underlying character list. -/
def stripList (l : List Char) : List Char :=
  ((l.dropWhile wsChar).reverse.dropWhile wsChar).reverse

/-- Python `str.strip()`. -/
def pyStrip (s : String) : String := String.mk (stripList s.toList)

/-- Python `str.lower()` on the character list (the core `String.toLower` is
defined by well-founded recursion, which the kernel cannot evaluate; a plain
`List.map` computes the same ASCII lowering). -/
def lowerChars (l : List Char) : List Char := l.map Char.toLower

/-- Python `str.lower()`. -/
def strLower (s : String) : String := String.mk (lowerChars s.toList)

/-- Python `str.upper()`. -/
def strUpper (s : String) : String := String.mk (s.toList.map Char.toUpper)

/-- Characters urlparse accepts after the first character of a scheme. -/
def schemeCharOk (c : Char) : Bool :=
  c.isAlphanum || c == '+' || c == '-' || c == '.'

/-- Characters that end the netloc component of a URL. -/
def netlocCharOk (c : Char) : Bool := c != '/' && c != '?' && c != '#'

/-- Split a character list at its first colon. -/
def splitAtColon : List Char → Option (List Char × List Char)
  | [] => none
  | c :: cs =>
    if c = ':' then some ([], cs)
    else
      match splitAtColon cs with
      | some (pre, post) => some (c :: pre, post)
      | none => none

/-- Modelled from `urllib.parse.urlparse` as `canonical_site` uses it: split at
the first colon; when the part before it is a valid scheme and `//` follows, the
netloc runs up to the next `/`, `?` or `#`; otherwise the netloc is empty (as
urlparse gives for such inputs, short of protocol-relative `//host` forms). -/
def schemeNetloc (url : String) : String × String :=
  match splitAtColon url.toList with
  | some (pre, post) =>
    if pre ≠ [] ∧ (pre.headD 'a').isAlpha ∧ pre.all schemeCharOk ∧
        post.take 2 = ['/', '/'] then
      (String.mk (lowerChars pre), String.mk (((post.drop 2).takeWhile netlocCharOk)))
    else ("", "")
  | none => ("", "")

/-- `storage._canonical_site`: scheme (defaulting to https) plus the lower-cased
host with one leading `www.` stripped; `None` when there is no host. -/
def canonical_site (url : Option String) : Option String :=
  match url with
  | none => none
  | some u =>
    if u = "" then none
    else
      let sn := schemeNetloc u
      let scheme := if sn.1 = "" then "https" else sn.1
      let host0 := lowerChars sn.2.toList
      let host := if ['w', 'w', 'w', '.'].isPrefixOf host0 then host0.drop 4 else host0
      if host = [] then none
      else some (String.mk (scheme.toList ++ [':', '/', '/'] ++ host))

/-- A record of `data/organizations.json` (a Python dict; absent keys are `none`). -/
structure OrgRec where
  organization_id : Option Int := none
  name : Option String := none
  website : Option String := none
  contact_email : Option String := none
  description : Option String := none
  created_at : Option String := none
deriving DecidableEq, Repr

/-- A record of `data/projects.json`. -/
structure ProjRec where
  project_id : Option Int := none
  name : Option String := none
  description : Option String := none
  created_at : Option String := none
  organization_id : Option Int := none
  source_url : Option String := none
deriving DecidableEq, Repr

/-- Python `max(ids, default=0)`. -/
def maxIdOf (ids : List Int) : Int :=
  match ids with
  | [] => 0
  | x :: xs => xs.foldl max x

/-- Scan a list for the first element satisfying `p`, replace it by its `f`-image
and return the new list together with that image; `none` when nothing matches.
This is the functional reading of storage.py's `for o in orgs: if ...: mutate o;
return o` loops (the returned record aliases the list entry). -/
def updateFirst (p : α → Bool) (f : α → α) : List α → Option (List α × α)
  | [] => none
  | x :: xs =>
    if p x then some (f x :: xs, f x)
    else
      match updateFirst p f xs with
      | some (ys, r) => some (x :: ys, r)
      | none => none

/-- `if description and len(description) > len(o.get("description") or ""):
o["description"] = description` applied to an org record. -/
def updDescO (d : Option String) (o : OrgRec) : OrgRec :=
  if truthyO d && decide ((strOf o.description).length < (strOf d).length) then
    { o with description := d }
  else o

/-- `if contact_email and not o.get("contact_email"): o["contact_email"] = contact_email`. -/
def updEmailO (e : Option String) (o : OrgRec) : OrgRec :=
  if truthyO e && !truthyO o.contact_email then { o with contact_email := e } else o

/-- `if name and not o.get("name"): o["name"] = name` (the raw name, unstripped). -/
def updNameO (name : String) (o : OrgRec) : OrgRec :=
  if name != "" && !truthyO o.name then { o with name := some name } else o

/-- `if norm and not o.get("website"): o["website"] = norm`. -/
def updSiteO (norm : Option String) (o : OrgRec) : OrgRec :=
  match norm with
  | some ns => if !truthyO o.website then { o with website := some ns } else o
  | none => o

/-- The mutation upsert_org applies to a record matched by normalized website. -/
def updW (name : String) (d e : Option String) (o : OrgRec) : OrgRec :=
  updNameO name (updEmailO e (updDescO d o))

/-- The mutation upsert_org applies to a record matched by case-insensitive name. -/
def updN (norm : Option String) (d e : Option String) (o : OrgRec) : OrgRec :=
  updSiteO norm (updEmailO e (updDescO d o))

/-- The website-key match of upsert_org step 1. -/
def matchSiteO (ns : String) (o : OrgRec) : Bool :=
  canonical_site o.website == some ns

/-- The name-key match of upsert_org step 2. -/
def matchNameO (lname : String) (o : OrgRec) : Bool :=
  strLower (pyStrip (strOf o.name)) == lname

/-- The fresh record built by upsert_org step 3 (`now` stands for `now_iso()`). -/
def newOrgRec (orgs : List OrgRec) (name : String) (website : Option String)
    (description contact_email : Option String) (norm : Option String)
    (now : String) : OrgRec :=
  { organization_id := some (maxIdOf (orgs.map (fun o => o.organization_id.getD 0)) + 1),
    name := some (if name = "" then "" else pyStrip name),
    website := (match norm with | some ns => some ns | none => website),
    contact_email := contact_email,
    description := some (strOf description),
    created_at := some now }

/-- Step 1 of upsert_org: the scan by normalized website (skipped when the
candidate website has no canonical form, `if norm:`). -/
def orgScanW (norm : Option String) (name : String) (d e : Option String)
    (orgs : List OrgRec) : Option (List OrgRec × OrgRec) :=
  match norm with
  | some ns => updateFirst (matchSiteO ns) (updW name d e) orgs
  | none => none

/-- Step 2 of upsert_org: the scan by case-insensitive name (skipped when the
stripped name is empty, `if lname:`). -/
def orgScanN (norm : Option String) (name : String) (d e : Option String)
    (orgs : List OrgRec) : Option (List OrgRec × OrgRec) :=
  if strLower (pyStrip name) = "" then none
  else updateFirst (matchNameO (strLower (pyStrip name))) (updN norm d e) orgs

/-- `storage.upsert_org`, functionally: the updated list plus the matched or
created record. `now` models the `now_iso()` timestamp of the create branch. -/
def upsert_org (orgs : List OrgRec) (name : String)
    (website description contact_email : Option String) (now : String) :
    List OrgRec × OrgRec :=
  let norm := canonical_site website
  match orgScanW norm name description contact_email orgs with
  | some res => res
  | none =>
    match orgScanN norm name description contact_email orgs with
    | some res => res
    | none =>
      let r := newOrgRec orgs name website description contact_email norm now
      (orgs ++ [r], r)

/-- Description update of upsert_project (same shape as the org one). -/
def updDescP (d : Option String) (p : ProjRec) : ProjRec :=
  if truthyO d && decide ((strOf p.description).length < (strOf d).length) then
    { p with description := d }
  else p

/-- `if source_url and not p.get("source_url"): p["source_url"] = source_url`. -/
def updSrcP (src : Option String) (p : ProjRec) : ProjRec :=
  match src with
  | some s => if s != "" && !truthyO p.source_url then { p with source_url := some s } else p
  | none => p

/-- The (org, source_url)-key match of upsert_project step 1. -/
def matchSrcP (oid : Int) (s : String) (p : ProjRec) : Bool :=
  p.organization_id == some oid && strOf p.source_url == s

/-- The (org, normalized name)-key match of upsert_project step 2. -/
def matchNameP (oid : Int) (lname : String) (p : ProjRec) : Bool :=
  p.organization_id == some oid && strLower (pyStrip (strOf p.name)) == lname

/-- The fresh record built by upsert_project step 3. -/
def newProjRec (projs : List ProjRec) (name : String) (description : Option String)
    (source_url : Option String) (oid : Int) (now : String) : ProjRec :=
  { project_id := some (maxIdOf (projs.map (fun p => p.project_id.getD 0)) + 1),
    name := some (if name = "" then "" else pyStrip name),
    description := some (strOf description),
    created_at := some now,
    organization_id := some oid,
    source_url := source_url }

/-- Step 1 of upsert_project: the scan by (organization, source_url) (skipped
when source_url is falsy, `if source_url:`). -/
def projScanS (source_url : Option String) (oid : Int) (d : Option String)
    (projs : List ProjRec) : Option (List ProjRec × ProjRec) :=
  match source_url with
  | some s =>
    if s = "" then none
    else updateFirst (matchSrcP oid s) (updDescP d) projs
  | none => none

/-- The mutation of upsert_project's name-matched branch: the description
update followed by the source_url fill. -/
def updSrcDescP (src d : Option String) (p : ProjRec) : ProjRec :=
  updSrcP src (updDescP d p)

/-- Step 2 of upsert_project: the scan by (organization, normalized name). -/
def projScanN (source_url : Option String) (name : String) (oid : Int)
    (d : Option String) (projs : List ProjRec) : Option (List ProjRec × ProjRec) :=
  if strLower (pyStrip name) = "" then none
  else
    updateFirst (matchNameP oid (strLower (pyStrip name)))
      (updSrcDescP source_url d) projs

/-- `storage.upsert_project`, functionally. -/
def upsert_project (projs : List ProjRec) (name : String)
    (description source_url : Option String) (oid : Int) (now : String) :
    List ProjRec × ProjRec :=
  match projScanS source_url oid description projs with
  | some res => res
  | none =>
    match projScanN source_url name oid description projs with
    | some res => res
    | none =>
      let r := newProjRec projs name description source_url oid now
      (projs ++ [r], r)

/-- `models.Metrics` (Python ints as `Int`; the rolling windows as lists). -/
structure Metrics where
  actions_total : Int := 0
  pages_visited : Int := 0
  frontier_size : Int := 0
  new_in_window : Int := 0
  window_actions : List Int := []
  window_new : List Int := []
deriving DecidableEq, Repr

/-- `Metrics.push_window`: append to both windows, then `pop(0)` from both when
`len(window_actions) > window`. -/
def Metrics.push_window (m : Metrics) (actions new_links window : Int) : Metrics :=
  let wa := m.window_actions ++ [actions]
  let wn := m.window_new ++ [new_links]
  if window < (wa.length : Int) then
    { m with window_actions := wa.tail, window_new := wn.tail }
  else
    { m with window_actions := wa, window_new := wn }

/-- `Metrics.frontier_new_ratio`: `n / (sum(window_actions) or 1)`, with the
float division modelled over the rationals. -/
def Metrics.frontier_new_ratio (m : Metrics) : ℚ :=
  let a : Int := if m.window_actions.sum = 0 then 1 else m.window_actions.sum
  (m.window_new.sum : ℚ) / (a : ℚ)

/-- A sequence of `push_window` calls (actions, new_links) from a given state. -/
def runPushes (w : Int) (m : Metrics) : List (Int × Int) → Metrics
  | [] => m
  | p :: ps => runPushes w (m.push_window p.1 p.2 w) ps

/-- `models.BudgetHard`. -/
structure BudgetHard where
  max_actions : Int := 40
  time_budget_s : Int := 120
deriving DecidableEq, Repr

/-- `models.BudgetSoft` (the float threshold as a rational). -/
structure BudgetSoft where
  plateau_window : Int := 4
  min_new_ratio : ℚ := 15 / 100
deriving DecidableEq, Repr

/-- `models.StopConfig`. -/
structure StopConfig where
  hard : BudgetHard := {}
  soft : BudgetSoft := {}
deriving DecidableEq, Repr

/-- Modelled from the spec: the repository under src only declares the crawl data
model (models.py); the CrawlOrchestrator loop of spec section 4.5 is not present in
src, so its per-step environment is modelled as oracles: the number of executed
SCROLL actions the Reflector returns for a visit, the gotoUrls it returns, the
ReachabilityFilter verdict, and the wall clock at each iteration's hard-stop check. -/
structure CrawlEnv where
  scrolls : String → Nat
  links : String → List String
  allowed : String → Bool
  elapsed : Nat → Int

/-- Modelled from the spec: the WalkState the orchestrator owns while RUNNING
(visited set, FIFO frontier, metrics), plus the iteration counter the wall-clock
oracle is indexed by. -/
structure CrawlState where
  visited : List String
  frontier : List String
  metrics : Metrics
  iter : Nat
deriving DecidableEq, Repr

/-- The terminal states of spec section 4.5. -/
inductive StopReason where
  | stopped_hard
  | stopped_soft
  | stopped_empty_frontier
deriving DecidableEq, Repr

/-- Modelled from the spec: spec section 4.5 step 12, appending each gotoUrl that
passes the filter and is in neither visited nor the frontier to the frontier tail. -/
def extendFrontier (env : CrawlEnv) (visited frontier urls : List String) : List String :=
  urls.foldl
    (fun fr u => if env.allowed u && !(visited.contains u) && !(fr.contains u) then fr ++ [u] else fr)
    frontier

/-- Modelled from the spec: the CrawlOrchestrator loop of spec section 4.5.
Hard stop at the top of each iteration before navigation; empty-frontier exit;
visited/filter discards that count no action; a visit counts 1 action plus 1 per
executed SCROLL action; metrics window push then the soft-stop check. `fuel`
bounds the recursion; `none` means the bound was exhausted mid-run. -/
def crawlLoop (env : CrawlEnv) (stop : StopConfig) :
    Nat → CrawlState → Option (CrawlState × StopReason)
  | 0, _ => none
  | fuel + 1, s =>
    if stop.hard.max_actions ≤ s.metrics.actions_total ∨
        stop.hard.time_budget_s ≤ env.elapsed s.iter then
      some (s, .stopped_hard)
    else
      match s.frontier with
      | [] => some (s, .stopped_empty_frontier)
      | url :: rest =>
        if s.visited.contains url then
          crawlLoop env stop fuel { s with frontier := rest, iter := s.iter + 1 }
        else if !env.allowed url then
          crawlLoop env stop fuel { s with frontier := rest, iter := s.iter + 1 }
        else
          let acts : Nat := 1 + env.scrolls url
          let visited2 := s.visited ++ [url]
          let frontier2 := extendFrontier env visited2 rest (env.links url)
          let newLinks : Nat := frontier2.length - rest.length
          let m1 := { s.metrics with
                      actions_total := s.metrics.actions_total + (acts : Int),
                      pages_visited := s.metrics.pages_visited + 1 }
          let m2 := m1.push_window (acts : Int) (newLinks : Int) stop.soft.plateau_window
          let s2 : CrawlState :=
            { visited := visited2, frontier := frontier2, metrics := m2, iter := s.iter + 1 }
          if stop.soft.plateau_window ≤ (m2.window_actions.length : Int) ∧
              m2.frontier_new_ratio < stop.soft.min_new_ratio then
            some (s2, .stopped_soft)
          else
            crawlLoop env stop fuel s2

/-- Result of one fallible await of the browser automation layer: `.error` is a
raised exception (timeout, evaluation error, failed click). -/
abbrev Res (α : Type) := Except Unit α

/-- `r` collapsed to 0 — the body of the fetch.py helpers whose single
`page.evaluate` sits inside `try: ... except Exception: return 0`. -/
def resOr0 (r : Res Nat) : Nat :=
  match r with
  | .ok n => n
  | .error _ => 0

/-- The behaviour of one locator block of `_click_candidates` (one pattern with
one of its four locators): the `loc.count()` result and, per index, the combined
`loc.nth(i).click(...); page.wait_for_timeout(200)` outcome. -/
structure ClickBlockBeh where
  cnt : Res Nat
  click : Nat → Res Unit

/-- Number of indices in `[i, i+n)` whose click succeeds, stopping at the first
failure: the whole `try` block of `_click_candidates` aborts on the first raised
click (caught by the surrounding `except ... continue`). -/
def okPrefixFrom (click : Nat → Res Unit) : Nat → Nat → Nat
  | _, 0 => 0
  | i, n + 1 =>
    match click i with
    | .ok _ => 1 + okPrefixFrom click (i + 1) n
    | .error _ => 0

/-- Number of indices in `[i, i+n)` whose click succeeds, a failure skipping only
that index: `_close_popups` puts its `try` inside the `for i` loop and `continue`s. -/
def okCountFrom (click : Nat → Res Unit) : Nat → Nat → Nat
  | _, 0 => 0
  | i, n + 1 =>
    (match click i with | .ok _ => 1 | .error _ => 0) + okCountFrom click (i + 1) n

/-- Clicks performed by one `_click_candidates` locator block given its remaining
budget `limit - total`: `for i in range(min(count, max(0, limit - total)))`,
aborted (and caught) at the first failing click; a failing `count()` yields 0. -/
def clickBlockClicks (blk : ClickBlockBeh) (budget : Nat) : Nat :=
  match blk.cnt with
  | .error _ => 0
  | .ok c => okPrefixFrom blk.click 0 (min c budget)

/-- `fetch._click_candidates` over its flattened pattern x locator blocks: every
failure inside a block is swallowed, clicks accumulate up to `limit` (the loop
breaks once `total >= limit`; equivalently every later block gets budget 0). -/
def clickCandidates (blocks : List ClickBlockBeh) (limit : Nat) : Nat :=
  blocks.foldl (fun total blk => total + clickBlockClicks blk (limit - total)) 0

/-- Clicks of one `_close_popups` selector block: `min(count, per_loop)` indices,
each failure caught by the per-click `except ... continue`. -/
def selBlockClicks (blk : ClickBlockBeh) (perLoop : Nat) : Nat :=
  match blk.cnt with
  | .error _ => 0
  | .ok c => okCountFrom blk.click 0 (min c perLoop)

/-- `fetch._close_popups`: `max(1, loops)` passes, each clicking the close-selector
blocks then `_click_candidates(page, POPUP_CLOSE_PATTERNS, limit=per_loop)`; the
guarded Escape key press contributes nothing to the total. -/
def closePopups (sel cand : Nat → List ClickBlockBeh) (loops perLoop : Nat) : Nat :=
  (List.range (max 1 loops)).foldl
    (fun total l =>
      (sel l).foldl (fun t blk => t + selBlockClicks blk perLoop) total +
        clickCandidates (cand l) perLoop)
    0

/-- `fetch._infinite_scroll`: up to `steps` scroll evaluations, breaking (without
raising) at the first failure. -/
def infiniteScroll (stepRes : Nat → Res Unit) (steps : Nat) : Nat :=
  okPrefixFrom stepRes 0 steps

/-- The oracles of `fetch._switch_language`: per language code, the `loc.count()`
result (an UNGUARDED await) and the combined guarded
`loc.first.click(); page.wait_for_load_state(...)` outcome. -/
structure LangBeh where
  hrefCnt : String → Res Nat
  hrefClick : String → Res Unit
  roleCnt : String → Res Nat
  roleClick : String → Res Unit

/-- `fetch.LANG_PREFS`. -/
def LANG_PREFS : List String := ["uk", "uk-UA", "ua", "ukrainian", "українська", "українською"]

/-- The role-link codes of `_switch_language`'s second loop. -/
def ROLE_CODES : List String := ["Українська", "UA", "Uk", "Ukrainian"]

/-- One loop of `_switch_language`: `if await loc.count():` is outside any `try`
(its failure propagates); the click+wait is guarded, a failure falling through to
the next code. The second component counts the successful switch clicks (the
source returns only the Bool; the counter is instrumentation for the theorems). -/
def switchLoop (cnt : String → Res Nat) (click : String → Res Unit) :
    List String → Res (Bool × Nat)
  | [] => .ok (false, 0)
  | code :: rest =>
    match cnt code with
    | .error e => .error e
    | .ok 0 => switchLoop cnt click rest
    | .ok (_ + 1) =>
      match click code with
      | .ok _ => .ok (true, 1)
      | .error _ => switchLoop cnt click rest

/-- `fetch._switch_language`: the hreflang loop over LANG_PREFS, then the
role-link loop over the explicit code list; `False` when neither succeeds. -/
def switchLanguage (b : LangBeh) : Res (Bool × Nat) :=
  match switchLoop b.hrefCnt b.hrefClick LANG_PREFS with
  | .error e => .error e
  | .ok (true, k) => .ok (true, k)
  | .ok (false, _) => switchLoop b.roleCnt b.roleClick ROLE_CODES

/-- The oracles of `fetch._click_while_appears`: the k-th
`page.evaluate("document.body.innerHTML.length")` (UNGUARDED), the k-th
`page.wait_for_timeout(500)` (UNGUARDED), and the blocks fed to the k-th inner
`_click_candidates` round. -/
structure CwaBeh where
  evalLen : Nat → Res Nat
  wait : Nat → Res Unit
  rounds : Nat → List ClickBlockBeh

/-- The round loop of `_click_while_appears`, carrying the round index, the last
measured DOM length and the running total. -/
def cwaLoop (b : CwaBeh) (perRound : Nat) : Nat → Nat → Nat → Nat → Res Nat
  | 0, _, _, total => .ok total
  | fuel + 1, k, lastLen, total =>
    let clicked := clickCandidates (b.rounds k) perRound
    if clicked = 0 then .ok total
    else
      match b.wait k with
      | .error e => .error e
      | .ok _ =>
        match b.evalLen (k + 1) with
        | .error e => .error e
        | .ok curr =>
          if curr ≤ lastLen then .ok (total + clicked)
          else cwaLoop b perRound fuel (k + 1) curr (total + clicked)

/-- `fetch._click_while_appears`: the initial DOM-length evaluation is unguarded,
then up to `maxRounds` click rounds that stop when a round clicks nothing or the
DOM stops growing. -/
def clickWhileAppears (b : CwaBeh) (maxRounds perRound : Nat) : Res Nat :=
  match b.evalLen 0 with
  | .error e => .error e
  | .ok l0 => cwaLoop b perRound maxRounds 0 l0 0

/-- The oracles of one non-main frame in `fetch._walk_iframes`: the guarded
scroll evaluation and, per "more"-text, the guarded count and click+sleep. -/
structure FrameBeh where
  scrollEval : Res Unit
  txtCnt : String → Res Nat
  txtClick : String → Res Unit

/-- The text patterns `_walk_iframes` clicks inside each frame. -/
def IFRAME_TEXTS : List String :=
  ["more", "show more", "see more", "показати ще", "детальніше", "więcej"]

/-- The inner text loop of `_walk_iframes`: one `try` wraps the whole loop, so the
first raised count or click aborts the remaining texts of this frame (keeping the
count accumulated so far); a zero count just moves on. -/
def frameTextLoop (f : FrameBeh) : List String → Nat
  | [] => 0
  | t :: rest =>
    match f.txtCnt t with
    | .error _ => 0
    | .ok 0 => frameTextLoop f rest
    | .ok (_ + 1) =>
      match f.txtClick t with
      | .error _ => 0
      | .ok _ => 1 + frameTextLoop f rest

/-- Clicks collected from one frame: a failing scroll evaluation skips the frame
(`except ... continue`). -/
def frameClicks (f : FrameBeh) : Nat :=
  match f.scrollEval with
  | .error _ => 0
  | .ok _ => frameTextLoop f IFRAME_TEXTS

/-- `fetch._walk_iframes` over the non-main frames. -/
def walkIframes (frames : List FrameBeh) : Nat :=
  (frames.map frameClicks).sum

/-- `fetch.SCROLL_STEPS` at its documented default (env-tunable in the source). -/
def SCROLL_STEPS : Nat := 10

/-- The statement sites of fetch_page's reveal sequence (source order), used to
record the order in which the reveal steps are reached. -/
inductive StepTag where
  | acceptCookies
  | switchLang
  | closePopups1
  | domBaseline
  | tabClicks1
  | ariaExpanders
  | expandDetails
  | clickMore1
  | scrollOverflows1
  | infiniteScroll1
  | walkCarousels1
  | walkIframes1
  | closePopups2
  | maybeRemoveBackdrops1
  | domGrowthCheck
  | clickMore2
  | scrollOverflows2
  | infiniteScroll2
  | walkCarousels2
  | walkIframes2
  | tabClicks2
  | closePopups3
  | maybeRemoveBackdrops2
deriving DecidableEq, Repr

/-- The environment one `fetch_page` reveal sequence runs against: one oracle per
call site, in source order (fetch.py lines 446-486). Helpers whose every await is
guarded appear as `Res Nat` evaluation results; the unguarded awaits live inside
`LangBeh` (`loc.count()`) and `CwaBeh` (`page.evaluate` / `wait_for_timeout`). -/
structure RevealBehaviour where
  cookie : List ClickBlockBeh
  lang : LangBeh
  pop1sel : Nat → List ClickBlockBeh
  pop1cand : Nat → List ClickBlockBeh
  domLen1 : Res Nat
  tabs1 : List ClickBlockBeh
  aria1 : Res Nat
  detailsEval : Res Nat
  cwa1 : CwaBeh
  ovf1 : Res Nat
  scroll1 : Nat → Res Unit
  car1 : Res Nat
  frames1 : List FrameBeh
  pop2sel : Nat → List ClickBlockBeh
  pop2cand : Nat → List ClickBlockBeh
  backdrops1 : Res Nat
  domLen2 : Res Nat
  cwa2 : CwaBeh
  ovf2 : Res Nat
  scroll2 : Nat → Res Unit
  car2 : Res Nat
  frames2 : List FrameBeh
  tabs2 : List ClickBlockBeh
  pop3sel : Nat → List ClickBlockBeh
  pop3cand : Nat → List ClickBlockBeh
  backdrops2 : Res Nat

/-- The counters fetch_page holds at the end of the reveal sequence (the locals
it logs). `lang_clicks` is the instrumented successful-switch-click count. -/
structure RevealOut where
  cookie_clicks : Nat
  lang_switched : Bool
  lang_clicks : Nat
  pop1 : Nat
  tab_clicks : Nat
  aria_opened : Nat
  details_opened : Nat
  expand_clicks : Nat
  ovf1 : Nat
  ovf2 : Nat
  sc_steps : Nat
  car1 : Nat
  car2 : Nat
  ifr1 : Nat
  ifr2 : Nat
  pop2 : Nat
  pop3 : Nat
  backdrops_removed : Nat
deriving DecidableEq, Repr

/-- The reveal-step sites of phase 1, in source order. -/
def PHASE1_TRACE : List StepTag :=
  [.acceptCookies, .switchLang, .closePopups1, .domBaseline, .tabClicks1,
   .ariaExpanders, .expandDetails, .clickMore1, .scrollOverflows1,
   .infiniteScroll1, .walkCarousels1, .walkIframes1, .closePopups2,
   .maybeRemoveBackdrops1, .domGrowthCheck]

/-- The additional sites of the growth-triggered second sweep. -/
def PHASE2_TRACE : List StepTag :=
  [.clickMore2, .scrollOverflows2, .infiniteScroll2, .walkCarousels2,
   .walkIframes2, .tabClicks2, .closePopups3, .maybeRemoveBackdrops2]

/-- The reveal sequence of `fetch.fetch_page` (lines 446-486): cookies, language
switch, popup close, baseline DOM length; phase 1 (tabs, aria expanders, details,
"more" rounds, overflow scrolls, page scroll, carousels, iframes, popup close
with backdrop-removal fallback, best-effort network idle); then, when the DOM
grew by more than 2000 characters, a reduced-budget second sweep. Returns the
final counters (or the first uncaught exception) together with the trace of
reveal sites reached. -/
def fetchReveal (b : RevealBehaviour) : Res RevealOut × List StepTag :=
  let cookieClicks := clickCandidates b.cookie 2
  match switchLanguage b.lang with
  | .error e => (.error e, [.acceptCookies, .switchLang])
  | .ok lsw =>
    let pop1 := closePopups b.pop1sel b.pop1cand 2 10
    let baseline := resOr0 b.domLen1
    let tabs := clickCandidates b.tabs1 12
    let aria := resOr0 b.aria1
    let showDetails := resOr0 b.detailsEval
    match clickWhileAppears b.cwa1 8 6 with
    | .error e =>
      (.error e, [.acceptCookies, .switchLang, .closePopups1, .domBaseline,
                  .tabClicks1, .ariaExpanders, .expandDetails, .clickMore1])
    | .ok expand1 =>
      let ovf1 := resOr0 b.ovf1
      let sc1 := infiniteScroll b.scroll1 SCROLL_STEPS
      let car1 := resOr0 b.car1
      let ifr1 := walkIframes b.frames1
      let pop2 := closePopups b.pop2sel b.pop2cand 2 8
      let backdrops1 := if pop2 = 0 then resOr0 b.backdrops1 else 0
      let grew : Int := (resOr0 b.domLen2 : Int) - (baseline : Int)
      if grew ≤ 2000 then
        (.ok { cookie_clicks := cookieClicks, lang_switched := lsw.1,
               lang_clicks := lsw.2, pop1 := pop1, tab_clicks := tabs,
               aria_opened := aria, details_opened := showDetails,
               expand_clicks := expand1, ovf1 := ovf1, ovf2 := 0,
               sc_steps := sc1, car1 := car1, car2 := 0, ifr1 := ifr1,
               ifr2 := 0, pop2 := pop2, pop3 := 0,
               backdrops_removed := backdrops1 },
         PHASE1_TRACE)
      else
        match clickWhileAppears b.cwa2 3 5 with
        | .error e => (.error e, PHASE1_TRACE ++ [.clickMore2])
        | .ok expand2 =>
          let ovf2 := resOr0 b.ovf2
          let sc2 := infiniteScroll b.scroll2 (max 2 (SCROLL_STEPS / 2))
          let car2 := resOr0 b.car2
          let ifr2 := walkIframes b.frames2
          let tabs2 := clickCandidates b.tabs2 6
          let pop3 := closePopups b.pop3sel b.pop3cand 1 6
          let backdrops2 := if pop3 = 0 then resOr0 b.backdrops2 else 0
          (.ok { cookie_clicks := cookieClicks, lang_switched := lsw.1,
                 lang_clicks := lsw.2, pop1 := pop1,
                 tab_clicks := tabs + tabs2, aria_opened := aria,
                 details_opened := showDetails,
                 expand_clicks := expand1 + expand2, ovf1 := ovf1,
                 ovf2 := ovf2, sc_steps := sc1 + sc2, car1 := car1,
                 car2 := car2, ifr1 := ifr1, ifr2 := ifr2, pop2 := pop2,
                 pop3 := pop3, backdrops_removed := backdrops1 + backdrops2 },
           PHASE1_TRACE ++ PHASE2_TRACE)

/-- A Playwright page as the autoclose handler sees it: its identity and whether
it was actually opened through an opener relationship (a true popup). -/
structure PwPage where
  pid : Nat
  hasOpener : Bool
deriving DecidableEq, Repr

/-- A Python attribute-lookup result. -/
inductive PyAttr where
  | pynone
  | boundMethod (self : PwPage)
deriving DecidableEq, Repr

/-- `getattr(pg, "opener", None)` on a `playwright.async_api` Page: the async API
defines `opener` as an async METHOD (`await page.opener()`), so the attribute
exists on every page and the lookup returns the bound coroutine method — it is
never `None`, whether or not the page actually has an opener. -/
def getattr_opener (pg : PwPage) : PyAttr := .boundMethod pg

/-- The `on_new_page` decision of `fetch._wire_popup_window_autoclose`: ignore the
main page, then `opener = getattr(pg, "opener", None); if opener is None: return`,
otherwise schedule `close_page(pg)`. Returns whether a close task is scheduled. -/
def on_new_page (main_page : Option PwPage) (pg : PwPage) : Bool :=
  match main_page with
  | some mp =>
    if pg == mp then false
    else
      match getattr_opener pg with
      | .pynone => false
      | .boundMethod _ => true
  | none =>
    match getattr_opener pg with
    | .pynone => false
    | .boundMethod _ => true

/-- The close policy the function's own docstring (and the spec) state: close only
true popups — pages with an opener — and ignore the main page and opener-less
pages such as `context.new_page()` tabs. -/
def intendedAutoclose (main_page : Option PwPage) (pg : PwPage) : Bool :=
  (match main_page with | some mp => pg != mp | none => true) && pg.hasOpener

/-- A JSON-like Python value, as json.loads produces for the Reflector payload. -/
inductive JVal where
  | jnull
  | jbool (b : Bool)
  | jnum (n : Int)
  | jstr (s : String)
  | jlist (xs : List JVal)
  | jdict (kvs : List (String × JVal))
deriving Repr

/-- Python truthiness of a JSON value (`[]`, ``{}``, `""`, `0`, `False`, `None`
are falsy). -/
def jTruthy : JVal → Bool
  | .jnull => false
  | .jbool b => b
  | .jnum n => n != 0
  | .jstr s => s != ""
  | .jlist xs => !xs.isEmpty
  | .jdict kvs => !kvs.isEmpty

/-- Dict lookup, `d.get(k)`. -/
def jGet (kvs : List (String × JVal)) (k : String) : Option JVal :=
  (kvs.find? (fun kv => kv.1 == k)).map (fun kv => kv.2)

/-- Python `str(v)` as `_normalize_reflect_payload` applies it to the coverage and
action-type values. Containers are given a placeholder rendering (`repr` output
starts with a bracket, so it is never one of the recognized keywords, which is
all the normalizer observes). -/
def strPy : JVal → String
  | .jnull => "None"
  | .jbool true => "True"
  | .jbool false => "False"
  | .jnum n => toString n
  | .jstr s => s
  | .jlist _ => "[object]"
  | .jdict _ => "[object]"

/-- The coverage synonym table of `_normalize_reflect_payload`. -/
def covSynonym (c : String) : Option String :=
  if c = "full" ∨ c = "complete" ∨ c = "enough" ∨ c = "ok" ∨ c = "satisfactory" then
    some "sufficient"
  else none

/-- The coverage values `ReflectOutput.coverage` accepts. -/
def COVERAGE_ENUM : List String := ["none", "partial", "sufficient"]

/-- Coverage normalization: `str(...).strip().lower()`, the synonym map with the
original as default, then the fallback to "partial" outside the enum. -/
def normalizeCoverage (v : Option JVal) : String :=
  let cov0 := strLower (pyStrip (strPy (v.getD (.jstr ""))))
  let cov := (covSynonym cov0).getD cov0
  if cov ∈ COVERAGE_ENUM then cov else "partial"

/-- One normalized action entry (`{"type": t, "url": ..., "pattern": ..., "arg": ...}`). -/
structure NormAction where
  type : String
  url : Option JVal
  pattern : Option JVal
  arg : Option JVal

/-- The synonym groups of the action-type normalization chain. -/
def SCROLL_SYNS : List String := ["SCROLL_TO_BOTTOM", "SCROLLDOWN", "SCROLL-BOTTOM", "SCROLL_PAGE"]

/-- Synonyms mapped to OPEN_SITEMAP. -/
def SITEMAP_SYNS : List String := ["OPEN-SITEMAP", "SITEMAP"]

/-- Synonyms mapped to OPEN_ROBOTS. -/
def ROBOTS_SYNS : List String := ["OPEN-ROBOTS", "ROBOTS"]

/-- Synonyms mapped to GOTO. -/
def GOTO_SYNS : List String := ["VISIT", "NAVIGATE", "OPEN", "GOTO_URL"]

/-- `t = str(a.get("type", "")).strip().upper()` then the elif chain; a string
matching no synonym group is returned unchanged (the source has no else branch
that drops it). -/
def normType (t0 : String) : String :=
  let t := strUpper (pyStrip t0)
  if t ∈ SCROLL_SYNS then "SCROLL"
  else if t ∈ SITEMAP_SYNS then "OPEN_SITEMAP"
  else if t ∈ ROBOTS_SYNS then "OPEN_ROBOTS"
  else if t ∈ GOTO_SYNS then "GOTO"
  else t

/-- One entry of the actions loop: non-dict entries are skipped; a dict becomes a
normalized action (`norm_actions.append(...)` is unconditional). -/
def normalizeActionEntry (v : JVal) : Option NormAction :=
  match v with
  | .jdict kvs =>
    some { type := normType (strPy ((jGet kvs "type").getD (.jstr ""))),
           url := jGet kvs "url",
           pattern := jGet kvs "pattern",
           arg := jGet kvs "arg" }
  | _ => none

/-- `raw.get("actions") or []` then the normalization loop. A truthy non-list
value is modelled as yielding no entries (iterating a string or dict in the
source yields no dict elements either; a number would raise TypeError there). -/
def normalizeActions (v : Option JVal) : List NormAction :=
  match v.getD .jnull with
  | .jlist xs => xs.filterMap normalizeActionEntry
  | _ => []

/-- `[u for u in (raw.get("goto_urls") or []) if isinstance(u, str)]` (non-list
values modelled as yielding nothing). -/
def normalizeGotoUrls (v : Option JVal) : List String :=
  match v.getD .jnull with
  | .jlist xs => xs.filterMap (fun x => match x with | .jstr s => some s | _ => none)
  | _ => []

/-- Keep a projects entry: it is a dict and `(p.get("name") or "").strip()` is
truthy (a non-string truthy name would raise in the source; modelled as dropped). -/
def keepProject (v : JVal) : Option (List (String × JVal)) :=
  match v with
  | .jdict kvs =>
    match (jGet kvs "name").getD .jnull with
    | .jstr s => if pyStrip s = "" then none else some kvs
    | _ => none
  | _ => none

/-- `[p for p in (raw.get("projects") or []) if isinstance(p, dict)]` composed
with the final name filter. -/
def normalizeProjects (v : Option JVal) : List (List (String × JVal)) :=
  match v.getD .jnull with
  | .jlist xs => xs.filterMap keepProject
  | _ => []

/-- The fields of the Reflector payload that `_normalize_reflect_payload` touches. -/
structure RawPayload where
  coverage : Option JVal := none
  goto_urls : Option JVal := none
  projects : Option JVal := none
  actions : Option JVal := none

/-- The corresponding slice of the normalized payload. -/
structure NormPayload where
  coverage : String
  goto_urls : List String
  projects : List (List (String × JVal))
  actions : List NormAction

/-- `llm._normalize_reflect_payload` on the fields it rewrites. -/
def normalize_reflect_payload (raw : RawPayload) : NormPayload :=
  { coverage := normalizeCoverage raw.coverage,
    goto_urls := normalizeGotoUrls raw.goto_urls,
    projects := normalizeProjects raw.projects,
    actions := normalizeActions raw.actions }

/-- The five tags `models.ActionType` admits; pydantic validation of
`ReflectOutput` fails on any other `type` string. -/
def KNOWN_ACTION_TYPES : List String :=
  ["GOTO", "SCROLL", "OPEN_SITEMAP", "OPEN_ROBOTS", "SWITCH_LANGUAGE"]

/-- The Literal check `ReflectOutput.model_validate` applies to the actions list. -/
def validActions (acts : List NormAction) : Bool :=
  acts.all (fun a => a.type ∈ KNOWN_ACTION_TYPES)

/-! ### Theorems -/

/-- Claim C6. The popup autoclose handler is wired to close only true popups
(pages with an opener) other than the primary page, but `getattr(pg, "opener",
None)` yields the Page.opener coroutine method — never None — so the handler
schedules a close for EVERY new page other than the primary one: at the concrete
failing input, a page created without any opener, the code closes it while the
function's own docstring (and the claim) says it must be left alone; in general
the decision equals `pg != main` and ignores the opener relationship entirely. -/
theorem popup_autoclose_closes_openerless_pages :
    on_new_page (some ⟨1, false⟩) ⟨2, false⟩ = true ∧
    intendedAutoclose (some ⟨1, false⟩) ⟨2, false⟩ = false ∧
    ∀ (mp pg : PwPage), on_new_page (some mp) pg = (pg != mp) := by
  refine ⟨rfl, rfl, fun mp pg => ?_⟩
  by_cases h : pg = mp <;> simp [on_new_page, getattr_opener, h]

/-- A raw Reflector payload whose single action carries the unrecognized type
string "FLY". -/
def rawFly : RawPayload :=
  { actions := some (.jlist [.jdict [("type", .jstr "FLY")]]) }

/-- Claim C7, counterexample. Normalizing a payload whose action type is the
unrecognized string "FLY" KEEPS the entry with type "FLY" (the source appends
unconditionally instead of dropping unknown tags), and the ReflectOutput
Literal check then fails — the claim that the result always validates with all
actions among the five known tags is false. -/
theorem reflect_normalize_keeps_unknown_type :
    (normalize_reflect_payload rawFly).actions.map NormAction.type = ["FLY"] ∧
    validActions (normalize_reflect_payload rawFly).actions = false := by
  exact ⟨by decide, by decide⟩

/-- Claim C7, amended. Coverage always normalizes into the enum, every kept
action entry's type is `normType` of a string (non-dict entries are dropped by
`normalizeActionEntry`), `normType` never leaves a recognized synonym unmapped,
and validation succeeds exactly when every kept type is one of the five known
tags — but an unrecognized type string is kept (trimmed, upper-cased) rather
than dropped, so validation can fail. -/
theorem reflect_normalize_amended (raw : RawPayload) :
    (normalize_reflect_payload raw).coverage ∈ COVERAGE_ENUM ∧
    (∀ a ∈ (normalize_reflect_payload raw).actions, ∃ t0, a.type = normType t0) ∧
    (∀ s : String, normType s ∈ KNOWN_ACTION_TYPES ∨
      (normType s ∉ SCROLL_SYNS ∧ normType s ∉ SITEMAP_SYNS ∧
       normType s ∉ ROBOTS_SYNS ∧ normType s ∉ GOTO_SYNS)) ∧
    (validActions (normalize_reflect_payload raw).actions = true ↔
      ∀ a ∈ (normalize_reflect_payload raw).actions, a.type ∈ KNOWN_ACTION_TYPES) := by
  refine ⟨?_, ?_, ?_, ?_⟩
  · show (if _ ∈ COVERAGE_ENUM then _ else "partial") ∈ COVERAGE_ENUM
    split
    · assumption
    · decide
  · intro a ha
    have ha2 : a ∈ normalizeActions raw.actions := ha
    unfold normalizeActions at ha2
    cases hv : raw.actions.getD JVal.jnull <;> simp only [hv] at ha2 <;>
      try exact absurd ha2 (List.not_mem_nil a)
    rcases List.mem_filterMap.mp ha2 with ⟨v, _, hva⟩
    rcases v with _ | _ | _ | _ | _ | kvs <;> simp [normalizeActionEntry] at hva
    exact ⟨_, (congrArg NormAction.type hva.symm)⟩
  · intro s
    simp only [normType]
    split_ifs with h1 h2 h3 h4
    · left; decide
    · left; decide
    · left; decide
    · left; decide
    · right; exact ⟨h1, h2, h3, h4⟩
  · simp [validActions, List.all_eq_true]

/-- Witness for the amended C7 theorem at the concrete payload `rawFly`. -/
theorem reflect_normalize_amended_witness :
    (normalize_reflect_payload rawFly).coverage ∈ COVERAGE_ENUM :=
  (reflect_normalize_amended rawFly).1

theorem tail_append_of_ne_nil {α : Type _} {l : List α} (h : l ≠ []) (l2 : List α) :
    (l ++ l2).tail = l.tail ++ l2 := by
  cases l with
  | nil => exact absurd rfl h
  | cons x xs => rfl

/-- Claim C4. With non-negative window entries the denominator `sum or 1`
coincides with `max(1, sum)`, so the ratio is the claimed total-window ratio and
never divides by zero; and pushing a zero-action step (window size at least 1)
still leaves a trailing 0 entry in `window_actions`. -/
theorem metrics_ratio_denominator_and_zero_step (m : Metrics)
    (h : ∀ x ∈ m.window_actions, (0 : Int) ≤ x) :
    m.frontier_new_ratio =
      (m.window_new.sum : ℚ) / ((max 1 m.window_actions.sum : Int) : ℚ) ∧
    ∀ (n w : Int), 1 ≤ w →
      ((m.push_window 0 n w).window_actions).getLast? = some 0 := by
  constructor
  · simp only [Metrics.frontier_new_ratio]
    by_cases h0 : m.window_actions.sum = 0
    · rw [if_pos h0, h0]
      norm_num
    · have hpos : 0 < m.window_actions.sum :=
        lt_of_le_of_ne (List.sum_nonneg h) (Ne.symm h0)
      rw [if_neg h0, max_eq_right (by omega)]
  · intro n w hw
    simp only [Metrics.push_window]
    split
    · rename_i hlt
      cases hma : m.window_actions with
      | nil =>
        rw [hma] at hlt
        simp at hlt
        omega
      | cons y ys =>
        show (ys ++ [(0 : Int)]).getLast? = some 0
        rw [List.getLast?_append_cons]
        rfl
    · show (m.window_actions ++ [(0 : Int)]).getLast? = some 0
      rw [List.getLast?_append_cons]
      rfl

/-- Witness for C4 at a concrete metrics state. -/
theorem metrics_ratio_denominator_witness :
    ({ window_actions := [2, 3], window_new := [1, 0] } : Metrics).frontier_new_ratio =
      ((([1, 0] : List Int).sum : ℚ) /
        ((max 1 ([2, 3] : List Int).sum : Int) : ℚ)) ∧
    ((({ window_actions := [2, 3], window_new := [1, 0] } : Metrics).push_window
        0 4 2).window_actions).getLast? = some 0 :=
  ⟨(metrics_ratio_denominator_and_zero_step _ (by decide)).1,
   (metrics_ratio_denominator_and_zero_step
      ({ window_actions := [2, 3], window_new := [1, 0] } : Metrics)
      (by decide)).2 4 2 (by decide)⟩

theorem runPushes_append (w : Int) (m : Metrics) (ps : List (Int × Int)) (p : Int × Int) :
    runPushes w m (ps ++ [p]) = (runPushes w m ps).push_window p.1 p.2 w := by
  induction ps generalizing m with
  | nil => rfl
  | cons q qs ih => exact ih _

theorem push_window_actions_total (m : Metrics) (a n w : Int) :
    (m.push_window a n w).actions_total = m.actions_total := by
  simp only [Metrics.push_window]
  split <;> rfl

theorem runPushes_windows (w : Int) (hw : 1 ≤ w) (ps : List (Int × Int)) :
    (runPushes w {} ps).window_actions =
      (ps.map Prod.fst).drop (ps.length - w.toNat) ∧
    (runPushes w {} ps).window_new =
      (ps.map Prod.snd).drop (ps.length - w.toNat) := by
  have hW1 : 1 ≤ w.toNat := by omega
  have hWw : (w.toNat : Int) = w := Int.toNat_of_nonneg (by omega)
  induction ps using List.reverseRecOn with
  | nil => simp [runPushes]
  | append_singleton ps p ih =>
    obtain ⟨ih1, ih2⟩ := ih
    rw [runPushes_append]
    simp only [Metrics.push_window, ih1, ih2]
    have hxs : (ps.map Prod.fst).length = ps.length := List.length_map _ _
    have hys : (ps.map Prod.snd).length = ps.length := List.length_map _ _
    have hdropLen :
        ((ps.map Prod.fst).drop (ps.length - w.toNat)).length =
          ps.length - (ps.length - w.toNat) := by
      rw [List.length_drop, hxs]
    by_cases hk : w.toNat ≤ ps.length
    · have hcond :
          w < ((((ps.map Prod.fst).drop (ps.length - w.toNat)) ++ [p.1]).length : Int) := by
        rw [List.length_append, hdropLen]
        simp only [List.length_cons, List.length_nil]
        omega
      rw [if_pos hcond]
      have hne : (ps.map Prod.fst).drop (ps.length - w.toNat) ≠ [] := by
        intro hnil
        rw [hnil] at hdropLen
        simp at hdropLen
        omega
      have hne2 : (ps.map Prod.snd).drop (ps.length - w.toNat) ≠ [] := by
        intro hnil
        have : ((ps.map Prod.snd).drop (ps.length - w.toNat)).length =
            ps.length - (ps.length - w.toNat) := by rw [List.length_drop, hys]
        rw [hnil] at this
        simp at this
        omega
      constructor
      · show ((((ps.map Prod.fst).drop (ps.length - w.toNat)) ++ [p.1]).tail) =
          ((ps ++ [p]).map Prod.fst).drop ((ps ++ [p]).length - w.toNat)
        rw [tail_append_of_ne_nil hne, List.tail_drop, List.map_append,
          List.drop_append_eq_append_drop]
        simp only [List.map_cons, List.map_nil, List.length_append, List.length_cons,
          List.length_nil, hxs]
        congr 1
        · congr 1
          omega
        · have : ps.length + 1 - w.toNat - ps.length = 0 := by omega
          rw [this, List.drop_zero]
      · show ((((ps.map Prod.snd).drop (ps.length - w.toNat)) ++ [p.2]).tail) =
          ((ps ++ [p]).map Prod.snd).drop ((ps ++ [p]).length - w.toNat)
        rw [tail_append_of_ne_nil hne2, List.tail_drop, List.map_append,
          List.drop_append_eq_append_drop]
        simp only [List.map_cons, List.map_nil, List.length_append, List.length_cons,
          List.length_nil, hys]
        congr 1
        · congr 1
          omega
        · have : ps.length + 1 - w.toNat - ps.length = 0 := by omega
          rw [this, List.drop_zero]
    · have hcond :
          ¬ (w < ((((ps.map Prod.fst).drop (ps.length - w.toNat)) ++ [p.1]).length : Int)) := by
        rw [List.length_append, hdropLen]
        simp only [List.length_cons, List.length_nil]
        omega
      rw [if_neg hcond]
      have h0 : ps.length - w.toNat = 0 := by omega
      have h1 : (ps ++ [p]).length - w.toNat = 0 := by
        rw [List.length_append]
        simp only [List.length_cons, List.length_nil]
        omega
      constructor
      · show (((ps.map Prod.fst).drop (ps.length - w.toNat)) ++ [p.1]) =
          ((ps ++ [p]).map Prod.fst).drop ((ps ++ [p]).length - w.toNat)
        rw [h0, h1, List.drop_zero, List.drop_zero, List.map_append]
        rfl
      · show (((ps.map Prod.snd).drop (ps.length - w.toNat)) ++ [p.2]) =
          ((ps ++ [p]).map Prod.snd).drop ((ps ++ [p]).length - w.toNat)
        rw [h0, h1, List.drop_zero, List.drop_zero, List.map_append]
        rfl

/-- Claim C5. Starting from empty windows, any sequence of `push_window` calls
with a fixed window size `w >= 1` leaves `window_actions` and `window_new` equal
to the suffix of the pushed values of length `min(pushes, w)`, in push order (so
their lengths agree and are bounded by `w`), and a push onto a full window
evicts exactly the single oldest entry of each window — never a full reset. -/
theorem push_window_ring_buffer (ps : List (Int × Int)) (w : Int) (hw : 1 ≤ w) :
    (runPushes w {} ps).window_actions =
      (ps.map Prod.fst).drop (ps.length - w.toNat) ∧
    (runPushes w {} ps).window_new =
      (ps.map Prod.snd).drop (ps.length - w.toNat) ∧
    (runPushes w {} ps).window_actions.length = min ps.length w.toNat ∧
    (runPushes w {} ps).window_new.length = min ps.length w.toNat ∧
    (∀ a n, w.toNat ≤ ps.length →
      (runPushes w {} (ps ++ [(a, n)])).window_actions =
        (runPushes w {} ps).window_actions.tail ++ [a]) := by
  obtain ⟨h1, h2⟩ := runPushes_windows w hw ps
  refine ⟨h1, h2, ?_, ?_, ?_⟩
  · rw [h1, List.length_drop, List.length_map]
    omega
  · rw [h2, List.length_drop, List.length_map]
    omega
  · intro a n hk
    obtain ⟨h1', _⟩ := runPushes_windows w hw (ps ++ [(a, n)])
    rw [h1', h1, List.tail_drop, List.map_append, List.drop_append_eq_append_drop]
    simp only [List.map_cons, List.map_nil, List.length_append, List.length_cons,
      List.length_nil, List.length_map]
    have e1 : ps.length + 1 - w.toNat - ps.length = 0 := by omega
    have e2 : ps.length + 1 - w.toNat = ps.length - w.toNat + 1 := by omega
    rw [e1, e2, List.drop_zero]

/-- Witness for C5 with three pushes into a window of size 2. -/
theorem push_window_ring_buffer_witness :
    (runPushes 2 {} [((5 : Int), (1 : Int)), (7, 0), (9, 2)]).window_actions =
      ([(((5 : Int), (1 : Int))), (7, 0), (9, 2)].map Prod.fst).drop
        ([(((5 : Int), (1 : Int))), (7, 0), (9, 2)].length - (2 : Int).toNat) :=
  (push_window_ring_buffer [(5, 1), (7, 0), (9, 2)] 2 (by decide)).1

theorem crawlLoop_actions_lt (env : CrawlEnv) (stop : StopConfig) (A : Int)
    (hA : ∀ url, 1 + (env.scrolls url : Int) ≤ A) :
    ∀ (fuel : Nat) (s0 : CrawlState),
      s0.metrics.actions_total < stop.hard.max_actions + A →
      ∀ s r, crawlLoop env stop fuel s0 = some (s, r) →
      s.metrics.actions_total < stop.hard.max_actions + A := by
  intro fuel
  induction fuel with
  | zero =>
    intro s0 h0 s r h
    exact absurd h (by simp [crawlLoop])
  | succ fuel ih =>
    intro s0 h0 s r h
    simp only [crawlLoop] at h
    split at h
    · obtain ⟨hs, _⟩ := Prod.mk.inj (Option.some.inj h)
      rw [← hs]
      exact h0
    · rename_i hnothard
      split at h
      · obtain ⟨hs, _⟩ := Prod.mk.inj (Option.some.inj h)
        rw [← hs]
        exact h0
      · rename_i url rest hfr
        split at h
        · exact ih { s0 with frontier := rest, iter := s0.iter + 1 } h0 s r h
        · split at h
          · exact ih { s0 with frontier := rest, iter := s0.iter + 1 } h0 s r h
          · rename_i hvis hallow
            have hlt : s0.metrics.actions_total < stop.hard.max_actions := by
              push_neg at hnothard
              exact hnothard.1
            have hacts : 1 + (env.scrolls url : Int) ≤ A := hA url
            split at h
            · obtain ⟨hs, _⟩ := Prod.mk.inj (Option.some.inj h)
              rw [← hs]
              show (Metrics.push_window _ _ _ _).actions_total < _
              rw [push_window_actions_total]
              show s0.metrics.actions_total + ((1 + env.scrolls url : Nat) : Int) < _
              push_cast
              omega
            · refine ih _ ?_ s r h
              show (Metrics.push_window _ _ _ _).actions_total < _
              rw [push_window_actions_total]
              show s0.metrics.actions_total + ((1 + env.scrolls url : Nat) : Int) < _
              push_cast
              omega

/-- Claim C1, amended (spec-modelled: the crawl loop itself is absent from src,
only its data model is; the loop here follows spec section 4.5). The hard-stop
check runs at the top of each iteration, before the step, so the final
`actions_total` can overshoot `hard.max_actions` by the final step's own action
count (1 for the visit plus 1 per executed SCROLL action); with every step
bounded by `A` actions the total stays below `max_actions + A` at every
termination, and in particular when every step performs exactly one action
(`A = 1`, no SCROLL actions) `actions_total <= max_actions` holds at
termination. The unqualified `actions_total <= max_actions` of the claim is
false, see the counterexample. -/
theorem crawl_hard_cap_overshoot_bound (env : CrawlEnv) (stop : StopConfig) (A : Int)
    (hA : ∀ url, 1 + (env.scrolls url : Int) ≤ A)
    (fuel : Nat) (s0 : CrawlState)
    (hs0 : s0.metrics.actions_total < stop.hard.max_actions + A)
    (s : CrawlState) (r : StopReason)
    (h : crawlLoop env stop fuel s0 = some (s, r)) :
    s.metrics.actions_total < stop.hard.max_actions + A ∧
    (A = 1 → s.metrics.actions_total ≤ stop.hard.max_actions) := by
  have hmain := crawlLoop_actions_lt env stop A hA fuel s0 hs0 s r h
  exact ⟨hmain, fun h1 => by omega⟩

/-- A crawl environment whose single visit executes one Reflector SCROLL action
(2 actions for the step) and discovers nothing. -/
def envC1 : CrawlEnv :=
  { scrolls := fun _ => 1, links := fun _ => [], allowed := fun _ => true,
    elapsed := fun _ => 0 }

/-- A stop configuration with `max_actions = 1` and a soft stop that cannot fire. -/
def stopC1 : StopConfig :=
  { hard := { max_actions := 1, time_budget_s := 1000 },
    soft := { plateau_window := 10, min_new_ratio := 0 } }

/-- The initial walk state with one frontier URL. -/
def initC1 : CrawlState :=
  { visited := [], frontier := ["a"], metrics := {}, iter := 0 }

/-- Claim C1, counterexample (spec-modelled). With `max_actions = 1` and a first
step that performs 2 actions (1 visit + 1 executed SCROLL), the run terminates
in STOPPED_HARD with `actions_total = 2 > 1 = hard.max_actions`: the claimed
invariant `actionsTotal <= hard.maxActions` fails at termination. -/
theorem crawl_hard_cap_exceeded :
    (crawlLoop envC1 stopC1 3 initC1).map (fun z => (z.1.metrics.actions_total, z.2)) =
      some (2, StopReason.stopped_hard) ∧
    ¬ ((2 : Int) ≤ stopC1.hard.max_actions) := by
  exact ⟨by decide, by decide⟩

/-- A scroll-free crawl environment for the C1 witness. -/
def envC1w : CrawlEnv :=
  { scrolls := fun _ => 0, links := fun _ => [], allowed := fun _ => true,
    elapsed := fun _ => 0 }

/-- Witness for the amended C1 theorem on a concrete scroll-free run. -/
theorem crawl_hard_cap_overshoot_bound_witness :
    ({ visited := ["a"], frontier := [], iter := 1,
       metrics := { actions_total := 1, pages_visited := 1,
                    window_actions := [1], window_new := [0] } } :
        CrawlState).metrics.actions_total < stopC1.hard.max_actions + 1 ∧
    ((1 : Int) = 1 →
      ({ visited := ["a"], frontier := [], iter := 1,
         metrics := { actions_total := 1, pages_visited := 1,
                      window_actions := [1], window_new := [0] } } :
          CrawlState).metrics.actions_total ≤ stopC1.hard.max_actions) :=
  crawl_hard_cap_overshoot_bound envC1w stopC1 1 (fun url => by simp [envC1w])
    3 initC1 (by decide)
    { visited := ["a"], frontier := [], iter := 1,
      metrics := { actions_total := 1, pages_visited := 1,
                   window_actions := [1], window_new := [0] } }
    StopReason.stopped_hard (by decide)

theorem okPrefixFrom_le (click : Nat → Res Unit) : ∀ i n, okPrefixFrom click i n ≤ n := by
  intro i n
  induction n generalizing i with
  | zero => simp [okPrefixFrom]
  | succ n ih =>
    simp only [okPrefixFrom]
    split
    · have := ih (i + 1)
      omega
    · omega

theorem clickBlockClicks_le (blk : ClickBlockBeh) (budget : Nat) :
    clickBlockClicks blk budget ≤ budget := by
  unfold clickBlockClicks
  split
  · omega
  · rename_i c _
    have h := okPrefixFrom_le blk.click 0 (min c budget)
    omega

theorem clickCandidates_foldl_le (limit : Nat) (blocks : List ClickBlockBeh) :
    ∀ total, total ≤ limit →
      blocks.foldl (fun t blk => t + clickBlockClicks blk (limit - t)) total ≤ limit := by
  induction blocks with
  | nil => intro t ht; exact ht
  | cons blk rest ih =>
    intro t ht
    apply ih
    show t + clickBlockClicks blk (limit - t) ≤ limit
    have := clickBlockClicks_le blk (limit - t)
    omega

theorem clickCandidates_le (blocks : List ClickBlockBeh) (limit : Nat) :
    clickCandidates blocks limit ≤ limit :=
  clickCandidates_foldl_le limit blocks 0 (Nat.zero_le _)

theorem switchLoop_ok (cnt : String → Res Nat) (click : String → Res Unit)
    (hc : ∀ c, ∃ n, cnt c = .ok n) :
    ∀ codes, ∃ z, switchLoop cnt click codes = .ok z := by
  intro codes
  induction codes with
  | nil => exact ⟨(false, 0), rfl⟩
  | cons c rest ih =>
    obtain ⟨n, hn⟩ := hc c
    cases n with
    | zero => simpa [switchLoop, hn] using ih
    | succ m =>
      cases hcl : click c with
      | ok u => exact ⟨(true, 1), by simp [switchLoop, hn, hcl]⟩
      | error e => simpa [switchLoop, hn, hcl] using ih

theorem switchLoop_count (cnt : String → Res Nat) (click : String → Res Unit) :
    ∀ codes b k, switchLoop cnt click codes = .ok (b, k) → k = if b then 1 else 0 := by
  intro codes
  induction codes with
  | nil =>
    intro b k h
    simp only [switchLoop, Except.ok.injEq, Prod.mk.injEq] at h
    obtain ⟨hb, hk⟩ := h
    subst hb
    subst hk
    rfl
  | cons c rest ih =>
    intro b k h
    simp only [switchLoop] at h
    cases hn : cnt c with
    | error e => simp only [hn] at h; exact Except.noConfusion h
    | ok n =>
      simp only [hn] at h
      cases n with
      | zero => exact ih b k h
      | succ m =>
        cases hcl : click c with
        | ok u =>
          simp only [hcl, Except.ok.injEq, Prod.mk.injEq] at h
          obtain ⟨hb, hk⟩ := h
          subst hb
          subst hk
          rfl
        | error e => simp only [hcl] at h; exact ih b k h

theorem switchLanguage_ok (L : LangBeh)
    (h1 : ∀ c, ∃ n, L.hrefCnt c = .ok n) (h2 : ∀ c, ∃ n, L.roleCnt c = .ok n) :
    ∃ z, switchLanguage L = .ok z := by
  obtain ⟨z1, hz1⟩ := switchLoop_ok L.hrefCnt L.hrefClick h1 LANG_PREFS
  obtain ⟨b1, k1⟩ := z1
  cases b1 with
  | true => exact ⟨(true, k1), by simp [switchLanguage, hz1]⟩
  | false =>
    obtain ⟨z2, hz2⟩ := switchLoop_ok L.roleCnt L.roleClick h2 ROLE_CODES
    exact ⟨z2, by simp [switchLanguage, hz1, hz2]⟩

theorem switchLanguage_count (L : LangBeh) (z : Bool × Nat)
    (h : switchLanguage L = .ok z) : z.2 ≤ 1 := by
  unfold switchLanguage at h
  cases hz1 : switchLoop L.hrefCnt L.hrefClick LANG_PREFS with
  | error e => simp only [hz1] at h; exact Except.noConfusion h
  | ok z1 =>
    obtain ⟨b1, k1⟩ := z1
    cases b1 with
    | true =>
      simp only [hz1, Except.ok.injEq] at h
      have hk := switchLoop_count L.hrefCnt L.hrefClick LANG_PREFS true k1 hz1
      rw [← h]
      simp at hk
      omega
    | false =>
      simp only [hz1] at h
      obtain ⟨b2, k2⟩ := z
      have hk := switchLoop_count L.roleCnt L.roleClick ROLE_CODES b2 k2 h
      cases b2 <;> simp at hk <;> omega

theorem cwaLoop_ok (b : CwaBeh) (perRound : Nat)
    (he : ∀ k, ∃ n, b.evalLen k = .ok n) (hw : ∀ k, b.wait k = .ok ()) :
    ∀ fuel k lastLen total, ∃ n, cwaLoop b perRound fuel k lastLen total = .ok n := by
  intro fuel
  induction fuel with
  | zero => intro k l t; exact ⟨t, rfl⟩
  | succ fuel ih =>
    intro k l t
    simp only [cwaLoop]
    split
    · exact ⟨t, rfl⟩
    · obtain ⟨n, hn⟩ := he (k + 1)
      simp only [hw, hn]
      split
      · exact ⟨_, rfl⟩
      · exact ih (k + 1) n _

theorem clickWhileAppears_ok (b : CwaBeh) (maxRounds perRound : Nat)
    (he : ∀ k, ∃ n, b.evalLen k = .ok n) (hw : ∀ k, b.wait k = .ok ()) :
    ∃ n, clickWhileAppears b maxRounds perRound = .ok n := by
  obtain ⟨n0, h0⟩ := he 0
  simp only [clickWhileAppears, h0]
  exact cwaLoop_ok b perRound he hw maxRounds 0 n0 0

/-- Claim C2, amended. Every interaction inside the guarded reveal helpers
(cookie clicks, popup closing, tab/expander/details clicks, scrolling, carousel
and iframe walking, backdrop removal, DOM-length probes) is swallowed and
counted as zero, but the reveal is NOT exception-proof: the `loc.count()` awaits
of `_switch_language` and the `page.evaluate` / `wait_for_timeout` awaits of
`_click_while_appears` sit outside every `try`, so the reveal completes exactly
when those unguarded operations do not raise — whenever they all succeed the
sequence returns counters for every behaviour of the other primitives. -/
theorem reveal_ok_of_unguarded_ok (b : RevealBehaviour)
    (h1 : ∀ c, ∃ n, b.lang.hrefCnt c = .ok n)
    (h2 : ∀ c, ∃ n, b.lang.roleCnt c = .ok n)
    (h3 : ∀ k, ∃ n, b.cwa1.evalLen k = .ok n)
    (h4 : ∀ k, b.cwa1.wait k = .ok ())
    (h5 : ∀ k, ∃ n, b.cwa2.evalLen k = .ok n)
    (h6 : ∀ k, b.cwa2.wait k = .ok ()) :
    ∃ out tr, fetchReveal b = (.ok out, tr) := by
  obtain ⟨z, hz⟩ := switchLanguage_ok b.lang h1 h2
  obtain ⟨n1, hn1⟩ := clickWhileAppears_ok b.cwa1 8 6 h3 h4
  obtain ⟨n2, hn2⟩ := clickWhileAppears_ok b.cwa2 3 5 h5 h6
  simp only [fetchReveal, hz, hn1, hn2]
  split
  · exact ⟨_, _, rfl⟩
  · exact ⟨_, _, rfl⟩

/-- A locator block whose count and every click raise. -/
def failBlk : ClickBlockBeh := { cnt := .error (), click := fun _ => .error () }

/-- A language-switch environment in which every await raises. -/
def failLang : LangBeh :=
  { hrefCnt := fun _ => .error (), hrefClick := fun _ => .error (),
    roleCnt := fun _ => .error (), roleClick := fun _ => .error () }

/-- A click-while-appears environment in which every await raises. -/
def failCwa : CwaBeh :=
  { evalLen := fun _ => .error (), wait := fun _ => .error (),
    rounds := fun _ => [failBlk] }

/-- An iframe in which every await raises. -/
def failFrame : FrameBeh :=
  { scrollEval := .error (), txtCnt := fun _ => .error (),
    txtClick := fun _ => .error () }

/-- A page behaviour in which every reveal sub-step's primitive raises. -/
def allFailReveal : RevealBehaviour :=
  { cookie := [failBlk], lang := failLang,
    pop1sel := fun _ => [failBlk], pop1cand := fun _ => [failBlk],
    domLen1 := .error (), tabs1 := [failBlk], aria1 := .error (),
    detailsEval := .error (), cwa1 := failCwa, ovf1 := .error (),
    scroll1 := fun _ => .error (), car1 := .error (), frames1 := [failFrame],
    pop2sel := fun _ => [failBlk], pop2cand := fun _ => [failBlk],
    backdrops1 := .error (), domLen2 := .error (), cwa2 := failCwa,
    ovf2 := .error (), scroll2 := fun _ => .error (), car2 := .error (),
    frames2 := [failFrame], tabs2 := [failBlk],
    pop3sel := fun _ => [failBlk], pop3cand := fun _ => [failBlk],
    backdrops2 := .error () }

/-- Claim C2, counterexample. On a page where every reveal primitive throws, the
reveal sequence does NOT complete with all-zero counters: the unguarded
`loc.count()` await inside `_switch_language` raises and the exception
propagates out of the reveal (and of `fetch_page`). -/
theorem reveal_raises_when_all_substeps_throw :
    (fetchReveal allFailReveal).1 = .error () := rfl

/-- A page behaviour whose every primitive succeeds and finds nothing to click. -/
def quietLang : LangBeh :=
  { hrefCnt := fun _ => .ok 0, hrefClick := fun _ => .ok (),
    roleCnt := fun _ => .ok 0, roleClick := fun _ => .ok () }

/-- A click-while-appears environment that succeeds and finds nothing. -/
def quietCwa : CwaBeh :=
  { evalLen := fun _ => .ok 0, wait := fun _ => .ok (), rounds := fun _ => [] }

/-- A page behaviour in which every primitive succeeds with nothing to reveal. -/
def quietReveal : RevealBehaviour :=
  { cookie := [], lang := quietLang,
    pop1sel := fun _ => [], pop1cand := fun _ => [],
    domLen1 := .ok 0, tabs1 := [], aria1 := .ok 0,
    detailsEval := .ok 0, cwa1 := quietCwa, ovf1 := .ok 0,
    scroll1 := fun _ => .ok (), car1 := .ok 0, frames1 := [],
    pop2sel := fun _ => [], pop2cand := fun _ => [],
    backdrops1 := .ok 0, domLen2 := .ok 0, cwa2 := quietCwa,
    ovf2 := .ok 0, scroll2 := fun _ => .ok (), car2 := .ok 0,
    frames2 := [], tabs2 := [],
    pop3sel := fun _ => [], pop3cand := fun _ => [],
    backdrops2 := .ok 0 }

/-- Witness for the amended C2 theorem: on the all-succeeding page the reveal
returns counters. -/
theorem reveal_ok_of_unguarded_ok_witness :
    ∃ out tr, fetchReveal quietReveal = (.ok out, tr) :=
  reveal_ok_of_unguarded_ok quietReveal (fun _ => ⟨0, rfl⟩) (fun _ => ⟨0, rfl⟩)
    (fun _ => ⟨0, rfl⟩) (fun _ => rfl) (fun _ => ⟨0, rfl⟩) (fun _ => rfl)

/-- Claim C3, amended. In the reveal sequence cookie acceptance is the first
step and the language switch the second (the spec's order is reversed: the code
runs `_accept_cookies` before `_switch_language`); cookie acceptance clicks at
most 2 matching elements and at most one successful language switch happens per
reveal. -/
theorem reveal_cookie_first_then_language (b : RevealBehaviour) :
    (fetchReveal b).2.take 2 = [StepTag.acceptCookies, StepTag.switchLang] ∧
    (∀ out tr, fetchReveal b = (.ok out, tr) →
      out.cookie_clicks ≤ 2 ∧ out.lang_clicks ≤ 1) := by
  constructor
  · simp only [fetchReveal]
    rcases hz : switchLanguage b.lang with e | lsw
    · rfl
    · rcases hc1 : clickWhileAppears b.cwa1 8 6 with e | n1
      · rfl
      · rcases hc2 : clickWhileAppears b.cwa2 3 5 with e | n2 <;>
          by_cases hg : ((resOr0 b.domLen2 : Int) - (resOr0 b.domLen1 : Int) ≤ 2000) <;>
          simp [hc2, hg, PHASE1_TRACE, PHASE2_TRACE]
  · intro out tr h
    simp only [fetchReveal] at h
    rcases hz : switchLanguage b.lang with e | lsw <;> simp only [hz] at h
    · simp at h
    · rcases hc1 : clickWhileAppears b.cwa1 8 6 with e | n1 <;> simp only [hc1] at h
      · simp at h
      · by_cases hg : ((resOr0 b.domLen2 : Int) - (resOr0 b.domLen1 : Int) ≤ 2000)
        · rw [if_pos hg] at h
          obtain ⟨h1, _⟩ := Prod.mk.inj h
          have hout := Except.ok.inj h1
          rw [← hout]
          exact ⟨clickCandidates_le _ 2, switchLanguage_count b.lang lsw hz⟩
        · rw [if_neg hg] at h
          rcases hc2 : clickWhileAppears b.cwa2 3 5 with e | n2 <;> simp only [hc2] at h
          · simp at h
          · obtain ⟨h1, _⟩ := Prod.mk.inj h
            have hout := Except.ok.inj h1
            rw [← hout]
            exact ⟨clickCandidates_le _ 2, switchLanguage_count b.lang lsw hz⟩

/-- Claim C3, counterexample. On a concrete page behaviour the trace of the
reveal puts cookie acceptance at position 0 and the language switch at position
1, so the language switch is NOT attempted before cookie acceptance. -/
theorem reveal_language_not_first :
    (fetchReveal quietReveal).2.indexOf StepTag.acceptCookies = 0 ∧
    (fetchReveal quietReveal).2.indexOf StepTag.switchLang = 1 ∧
    ¬ ((fetchReveal quietReveal).2.indexOf StepTag.switchLang <
        (fetchReveal quietReveal).2.indexOf StepTag.acceptCookies) := by
  exact ⟨by decide, by decide, by decide⟩

theorem truthyO_iff (x : Option String) : truthyO x = true ↔ strOf x ≠ "" := by
  cases x with
  | none => simp [truthyO, strOf]
  | some s => simp [truthyO, strOf]

theorem updateFirst_none_of_forall {α : Type _} {p : α → Bool} {f : α → α} :
    ∀ (xs : List α), (∀ a ∈ xs, p a = false) → updateFirst p f xs = none := by
  intro xs
  induction xs with
  | nil => intro _; rfl
  | cons x xs ih =>
    intro h
    have hx := h x (by simp)
    simp only [updateFirst, hx]
    rw [ih (fun a ha => h a (by simp [ha]))]
    rfl

theorem updateFirst_forall_of_none {α : Type _} {p : α → Bool} {f : α → α} :
    ∀ (xs : List α), updateFirst p f xs = none → ∀ a ∈ xs, p a = false := by
  intro xs
  induction xs with
  | nil => intro _ a ha; exact absurd ha (List.not_mem_nil a)
  | cons x xs ih =>
    intro h a ha
    by_cases hx : p x
    · simp only [updateFirst, if_pos hx] at h
      exact Option.noConfusion h
    · simp only [updateFirst, if_neg hx] at h
      cases hu : updateFirst p f xs with
      | some z =>
        obtain ⟨ys, r⟩ := z
        rw [hu] at h
        exact Option.noConfusion h
      | none =>
        rcases List.mem_cons.mp ha with rfl | hmem
        · exact Bool.eq_false_iff.mpr hx
        · exact ih hu a hmem

theorem updateFirst_cons_true {α : Type _} {p : α → Bool} {f : α → α} {b : α}
    (hb : p b = true) (cs : List α) :
    updateFirst p f (b :: cs) = some (f b :: cs, f b) := by
  simp [updateFirst, hb]

theorem updateFirst_append_none {α : Type _} {p : α → Bool} {f : α → α}
    {as : List α} (h : ∀ a ∈ as, p a = false) (bs : List α) :
    updateFirst p f (as ++ bs) =
      (updateFirst p f bs).map (fun z => (as ++ z.1, z.2)) := by
  induction as with
  | nil =>
    cases hu : updateFirst p f bs with
    | none => simpa [hu]
    | some z => obtain ⟨ys, r⟩ := z; simpa [hu]
  | cons x as ih =>
    have hx : p x = false := h x (by simp)
    have h2 : ∀ a ∈ as, p a = false := fun a ha => h a (by simp [ha])
    show updateFirst p f (x :: (as ++ bs)) = _
    simp only [updateFirst, hx]
    rw [ih h2]
    cases hu : updateFirst p f bs with
    | none => rfl
    | some z => obtain ⟨ys, r⟩ := z; rfl

theorem updateFirst_spec {α : Type _} {p : α → Bool} {f : α → α} :
    ∀ (xs ys : List α) (r : α), updateFirst p f xs = some (ys, r) →
      ∃ as b cs, xs = as ++ b :: cs ∧ (∀ a ∈ as, p a = false) ∧ p b = true ∧
        ys = as ++ f b :: cs ∧ r = f b := by
  intro xs
  induction xs with
  | nil => intro ys r h; exact Option.noConfusion h
  | cons x xs ih =>
    intro ys r h
    by_cases hx : p x
    · simp only [updateFirst, if_pos hx] at h
      obtain ⟨h1, h2⟩ := Prod.mk.inj (Option.some.inj h)
      refine ⟨[], x, xs, rfl, by simp, hx, ?_, ?_⟩
      · rw [← h1]; rfl
      · rw [← h2]
    · simp only [updateFirst, if_neg hx] at h
      cases hu : updateFirst p f xs with
      | none => rw [hu] at h; exact Option.noConfusion h
      | some z =>
        obtain ⟨ys2, r2⟩ := z
        rw [hu] at h
        obtain ⟨h1, h2⟩ := Prod.mk.inj (Option.some.inj h)
        obtain ⟨as, b, cs, hxs, has, hb, hys, hr⟩ := ih ys2 r2 hu
        refine ⟨x :: as, b, cs, by rw [hxs]; rfl, ?_, hb, ?_, ?_⟩
        · intro a ha
          rcases List.mem_cons.mp ha with rfl | hmem
          · exact Bool.eq_false_iff.mpr hx
          · exact has a hmem
        · rw [← h1, hys]; rfl
        · rw [← h2, hr]

theorem updDescO_name (d : Option String) (o : OrgRec) : (updDescO d o).name = o.name := by
  unfold updDescO; split <;> rfl

theorem updDescO_website (d : Option String) (o : OrgRec) :
    (updDescO d o).website = o.website := by
  unfold updDescO; split <;> rfl

theorem updDescO_email (d : Option String) (o : OrgRec) :
    (updDescO d o).contact_email = o.contact_email := by
  unfold updDescO; split <;> rfl

theorem updDescO_created (d : Option String) (o : OrgRec) :
    (updDescO d o).created_at = o.created_at := by
  unfold updDescO; split <;> rfl

theorem updDescO_id (d : Option String) (o : OrgRec) :
    (updDescO d o).organization_id = o.organization_id := by
  unfold updDescO; split <;> rfl

theorem updEmailO_name (e : Option String) (o : OrgRec) : (updEmailO e o).name = o.name := by
  unfold updEmailO; split <;> rfl

theorem updEmailO_website (e : Option String) (o : OrgRec) :
    (updEmailO e o).website = o.website := by
  unfold updEmailO; split <;> rfl

theorem updEmailO_desc (e : Option String) (o : OrgRec) :
    (updEmailO e o).description = o.description := by
  unfold updEmailO; split <;> rfl

theorem updEmailO_created (e : Option String) (o : OrgRec) :
    (updEmailO e o).created_at = o.created_at := by
  unfold updEmailO; split <;> rfl

theorem updEmailO_id (e : Option String) (o : OrgRec) :
    (updEmailO e o).organization_id = o.organization_id := by
  unfold updEmailO; split <;> rfl

theorem updNameO_website (n : String) (o : OrgRec) : (updNameO n o).website = o.website := by
  unfold updNameO; split <;> rfl

theorem updNameO_desc (n : String) (o : OrgRec) :
    (updNameO n o).description = o.description := by
  unfold updNameO; split <;> rfl

theorem updNameO_email (n : String) (o : OrgRec) :
    (updNameO n o).contact_email = o.contact_email := by
  unfold updNameO; split <;> rfl

theorem updNameO_created (n : String) (o : OrgRec) :
    (updNameO n o).created_at = o.created_at := by
  unfold updNameO; split <;> rfl

theorem updNameO_id (n : String) (o : OrgRec) :
    (updNameO n o).organization_id = o.organization_id := by
  unfold updNameO; split <;> rfl

theorem updSiteO_name (w : Option String) (o : OrgRec) : (updSiteO w o).name = o.name := by
  cases w <;> simp only [updSiteO] <;> first | rfl | (split <;> rfl)

theorem updSiteO_desc (w : Option String) (o : OrgRec) :
    (updSiteO w o).description = o.description := by
  cases w <;> simp only [updSiteO] <;> first | rfl | (split <;> rfl)

theorem updSiteO_email (w : Option String) (o : OrgRec) :
    (updSiteO w o).contact_email = o.contact_email := by
  cases w <;> simp only [updSiteO] <;> first | rfl | (split <;> rfl)

theorem updSiteO_created (w : Option String) (o : OrgRec) :
    (updSiteO w o).created_at = o.created_at := by
  cases w <;> simp only [updSiteO] <;> first | rfl | (split <;> rfl)

theorem updSiteO_id (w : Option String) (o : OrgRec) :
    (updSiteO w o).organization_id = o.organization_id := by
  cases w <;> simp only [updSiteO] <;> first | rfl | (split <;> rfl)

theorem updDescP_name (d : Option String) (p : ProjRec) : (updDescP d p).name = p.name := by
  unfold updDescP; split <;> rfl

theorem updDescP_src (d : Option String) (p : ProjRec) :
    (updDescP d p).source_url = p.source_url := by
  unfold updDescP; split <;> rfl

theorem updDescP_created (d : Option String) (p : ProjRec) :
    (updDescP d p).created_at = p.created_at := by
  unfold updDescP; split <;> rfl

theorem updDescP_id (d : Option String) (p : ProjRec) :
    (updDescP d p).project_id = p.project_id := by
  unfold updDescP; split <;> rfl

theorem updDescP_org (d : Option String) (p : ProjRec) :
    (updDescP d p).organization_id = p.organization_id := by
  unfold updDescP; split <;> rfl

theorem updSrcP_name (s : Option String) (p : ProjRec) : (updSrcP s p).name = p.name := by
  cases s <;> simp only [updSrcP] <;> first | rfl | (split <;> rfl)

theorem updSrcP_desc (s : Option String) (p : ProjRec) :
    (updSrcP s p).description = p.description := by
  cases s <;> simp only [updSrcP] <;> first | rfl | (split <;> rfl)

theorem updSrcP_created (s : Option String) (p : ProjRec) :
    (updSrcP s p).created_at = p.created_at := by
  cases s <;> simp only [updSrcP] <;> first | rfl | (split <;> rfl)

theorem updSrcP_id (s : Option String) (p : ProjRec) :
    (updSrcP s p).project_id = p.project_id := by
  cases s <;> simp only [updSrcP] <;> first | rfl | (split <;> rfl)

theorem updSrcP_org (s : Option String) (p : ProjRec) :
    (updSrcP s p).organization_id = p.organization_id := by
  cases s <;> simp only [updSrcP] <;> first | rfl | (split <;> rfl)

/-- What upsert_org leaves intact on a matched record: the description only ever
grows (to a truthy value), and name/website/contact_email/created_at are
untouched whenever they were non-empty. -/
def orgNonDestructive (r r2 : OrgRec) : Prop :=
  (r2.description = r.description ∨
    ((strOf r.description).length < (strOf r2.description).length ∧
      truthyO r2.description = true)) ∧
  (strOf r.name ≠ "" → r2.name = r.name) ∧
  (strOf r.website ≠ "" → r2.website = r.website) ∧
  (strOf r.contact_email ≠ "" → r2.contact_email = r.contact_email) ∧
  (strOf r.created_at ≠ "" → r2.created_at = r.created_at)

/-- The project analogue of `orgNonDestructive`. -/
def projNonDestructive (r r2 : ProjRec) : Prop :=
  (r2.description = r.description ∨
    ((strOf r.description).length < (strOf r2.description).length ∧
      truthyO r2.description = true)) ∧
  (strOf r.name ≠ "" → r2.name = r.name) ∧
  (strOf r.source_url ≠ "" → r2.source_url = r.source_url) ∧
  (strOf r.created_at ≠ "" → r2.created_at = r.created_at)

theorem orgNonDestructive_refl (r : OrgRec) : orgNonDestructive r r :=
  ⟨Or.inl rfl, fun _ => rfl, fun _ => rfl, fun _ => rfl, fun _ => rfl⟩

theorem projNonDestructive_refl (r : ProjRec) : projNonDestructive r r :=
  ⟨Or.inl rfl, fun _ => rfl, fun _ => rfl, fun _ => rfl⟩

theorem updDescO_nd (d : Option String) (o : OrgRec) :
    (updDescO d o).description = o.description ∨
      ((strOf o.description).length < (strOf (updDescO d o).description).length ∧
        truthyO (updDescO d o).description = true) := by
  unfold updDescO
  split
  · rename_i hcond
    simp only [Bool.and_eq_true, decide_eq_true_eq] at hcond
    right
    exact ⟨hcond.2, hcond.1⟩
  · left
    rfl

theorem updDescP_nd (d : Option String) (p : ProjRec) :
    (updDescP d p).description = p.description ∨
      ((strOf p.description).length < (strOf (updDescP d p).description).length ∧
        truthyO (updDescP d p).description = true) := by
  unfold updDescP
  split
  · rename_i hcond
    simp only [Bool.and_eq_true, decide_eq_true_eq] at hcond
    right
    exact ⟨hcond.2, hcond.1⟩
  · left
    rfl

theorem updW_nd (n : String) (d e : Option String) (o : OrgRec) :
    orgNonDestructive o (updW n d e o) := by
  refine ⟨?_, ?_, ?_, ?_, ?_⟩
  · have hd : (updW n d e o).description = (updDescO d o).description := by
      unfold updW
      rw [updNameO_desc, updEmailO_desc]
    rw [hd]
    exact updDescO_nd d o
  · intro hne
    have ht : truthyO o.name = true := (truthyO_iff o.name).mpr hne
    simp [updW, updNameO, updEmailO_name, updDescO_name, ht]
  · intro _
    simp [updW, updNameO_website, updEmailO_website, updDescO_website]
  · intro hne
    have ht : truthyO o.contact_email = true := (truthyO_iff _).mpr hne
    simp [updW, updNameO_email, updEmailO, updDescO_email, ht]
  · intro _
    simp [updW, updNameO_created, updEmailO_created, updDescO_created]

theorem updN_nd (w : Option String) (d e : Option String) (o : OrgRec) :
    orgNonDestructive o (updN w d e o) := by
  refine ⟨?_, ?_, ?_, ?_, ?_⟩
  · have hd : (updN w d e o).description = (updDescO d o).description := by
      unfold updN
      rw [updSiteO_desc, updEmailO_desc]
    rw [hd]
    exact updDescO_nd d o
  · intro _
    simp [updN, updSiteO_name, updEmailO_name, updDescO_name]
  · intro hne
    have ht : truthyO o.website = true := (truthyO_iff _).mpr hne
    cases w with
    | none => simp [updN, updSiteO, updEmailO_website, updDescO_website]
    | some ns => simp [updN, updSiteO, updEmailO_website, updDescO_website, ht]
  · intro hne
    have ht : truthyO o.contact_email = true := (truthyO_iff _).mpr hne
    simp [updN, updSiteO_email, updEmailO, updDescO_email, ht]
  · intro _
    simp [updN, updSiteO_created, updEmailO_created, updDescO_created]

theorem updDescP_only_nd (d : Option String) (p : ProjRec) :
    projNonDestructive p (updDescP d p) := by
  refine ⟨updDescP_nd d p, ?_, ?_, ?_⟩
  · intro _
    rw [updDescP_name]
  · intro _
    rw [updDescP_src]
  · intro _
    rw [updDescP_created]

theorem updSrcDescP_nd (s : Option String) (d : Option String) (p : ProjRec) :
    projNonDestructive p (updSrcP s (updDescP d p)) := by
  refine ⟨?_, ?_, ?_, ?_⟩
  · rw [updSrcP_desc]
    exact updDescP_nd d p
  · intro _
    rw [updSrcP_name, updDescP_name]
  · intro hne
    have ht : truthyO p.source_url = true := (truthyO_iff _).mpr hne
    cases s with
    | none => simp [updSrcP, updDescP_src]
    | some s2 => simp [updSrcP, updDescP_src, ht]
  · intro _
    rw [updSrcP_created, updDescP_created]

theorem updW_id (n : String) (d e : Option String) (o : OrgRec) :
    (updW n d e o).organization_id = o.organization_id := by
  unfold updW
  rw [updNameO_id, updEmailO_id, updDescO_id]

theorem updN_id (w : Option String) (d e : Option String) (o : OrgRec) :
    (updN w d e o).organization_id = o.organization_id := by
  unfold updN
  rw [updSiteO_id, updEmailO_id, updDescO_id]

theorem orgScanW_spec {norm : Option String} {name : String} {d e : Option String}
    {orgs : List OrgRec} {ys : List OrgRec} {r : OrgRec}
    (h : orgScanW norm name d e orgs = some (ys, r)) :
    ∃ ns, norm = some ns ∧
      updateFirst (matchSiteO ns) (updW name d e) orgs = some (ys, r) := by
  cases norm with
  | none => exact Option.noConfusion h
  | some ns => exact ⟨ns, rfl, h⟩

theorem orgScanN_spec {norm : Option String} {name : String} {d e : Option String}
    {orgs : List OrgRec} {ys : List OrgRec} {r : OrgRec}
    (h : orgScanN norm name d e orgs = some (ys, r)) :
    strLower (pyStrip name) ≠ "" ∧
      updateFirst (matchNameO (strLower (pyStrip name))) (updN norm d e) orgs =
        some (ys, r) := by
  unfold orgScanN at h
  split at h
  · exact Option.noConfusion h
  · rename_i hl
    exact ⟨hl, h⟩

theorem projScanS_spec {src : Option String} {oid : Int} {d : Option String}
    {projs : List ProjRec} {ys : List ProjRec} {r : ProjRec}
    (h : projScanS src oid d projs = some (ys, r)) :
    ∃ s, src = some s ∧ s ≠ "" ∧
      updateFirst (matchSrcP oid s) (updDescP d) projs = some (ys, r) := by
  cases src with
  | none => exact Option.noConfusion h
  | some s =>
    simp only [projScanS] at h
    split at h
    · exact Option.noConfusion h
    · rename_i hs
      exact ⟨s, rfl, hs, h⟩

theorem projScanN_spec {src : Option String} {name : String} {oid : Int}
    {d : Option String} {projs : List ProjRec} {ys : List ProjRec} {r : ProjRec}
    (h : projScanN src name oid d projs = some (ys, r)) :
    strLower (pyStrip name) ≠ "" ∧
      updateFirst (matchNameP oid (strLower (pyStrip name)))
        (updSrcDescP src d) projs = some (ys, r) := by
  unfold projScanN at h
  split at h
  · exact Option.noConfusion h
  · rename_i hl
    exact ⟨hl, h⟩

theorem forall₂_take_of_updateFirst {α : Type _} {R : α → α → Prop}
    (hrefl : ∀ x, R x x) {p : α → Bool} {f : α → α} (hf : ∀ x, R x (f x))
    {xs ys : List α} {r : α} (h : updateFirst p f xs = some (ys, r)) :
    List.Forall₂ R xs (ys.take xs.length) := by
  obtain ⟨as, b, cs, hxs, _, _, hys, _⟩ := updateFirst_spec xs ys r h
  subst hxs
  have hlen : (as ++ b :: cs).length = ys.length := by
    rw [hys]
    simp
  rw [hlen, List.take_length, hys]
  exact List.rel_append (List.forall₂_same.mpr fun x _ => hrefl x)
    (List.Forall₂.cons (hf b) (List.forall₂_same.mpr fun x _ => hrefl x))

theorem forall₂_take_append_self {α : Type _} {R : α → α → Prop}
    (hrefl : ∀ x, R x x) (xs : List α) (r : α) :
    List.Forall₂ R xs ((xs ++ [r]).take xs.length) := by
  rw [List.take_left]
  exact List.forall₂_same.mpr fun x _ => hrefl x

/-- Claim C8. Both upserts are non-destructive on every pre-existing record
(matched or not): the description is only ever replaced by a strictly longer
truthy one, and any previously non-empty name/website/contact_email/created_at
(resp. name/source_url/created_at) field is left exactly as it was. -/
theorem upsert_nondestructive
    (orgs : List OrgRec) (name : String)
    (website description contact_email : Option String) (now : String)
    (projs : List ProjRec) (pname : String) (pdesc psrc : Option String)
    (oid : Int) (pnow : String) :
    List.Forall₂ orgNonDestructive orgs
      ((upsert_org orgs name website description contact_email now).1.take
        orgs.length) ∧
    List.Forall₂ projNonDestructive projs
      ((upsert_project projs pname pdesc psrc oid pnow).1.take projs.length) := by
  constructor
  · simp only [upsert_org]
    cases hW : orgScanW (canonical_site website) name description contact_email orgs with
    | some z =>
      obtain ⟨ys, r⟩ := z
      obtain ⟨ns, _, hu⟩ := orgScanW_spec hW
      exact forall₂_take_of_updateFirst orgNonDestructive_refl
        (updW_nd name description contact_email) hu
    | none =>
      cases hN : orgScanN (canonical_site website) name description contact_email orgs with
      | some z =>
        obtain ⟨ys, r⟩ := z
        obtain ⟨_, hu⟩ := orgScanN_spec hN
        exact forall₂_take_of_updateFirst orgNonDestructive_refl
          (updN_nd (canonical_site website) description contact_email) hu
      | none => exact forall₂_take_append_self orgNonDestructive_refl orgs _
  · simp only [upsert_project]
    cases hS : projScanS psrc oid pdesc projs with
    | some z =>
      obtain ⟨ys, r⟩ := z
      obtain ⟨s, _, _, hu⟩ := projScanS_spec hS
      exact forall₂_take_of_updateFirst projNonDestructive_refl
        (updDescP_only_nd pdesc) hu
    | none =>
      cases hN : projScanN psrc pname oid pdesc projs with
      | some z =>
        obtain ⟨ys, r⟩ := z
        obtain ⟨_, hu⟩ := projScanN_spec hN
        exact forall₂_take_of_updateFirst projNonDestructive_refl
          (updSrcDescP_nd psrc pdesc) hu
      | none => exact forall₂_take_append_self projNonDestructive_refl projs _

/-- Witness for C8 on concrete one-record lists. -/
theorem upsert_nondestructive_witness :
    List.Forall₂ orgNonDestructive
      [({ name := some "Acme" } : OrgRec)]
      ((upsert_org [({ name := some "Acme" } : OrgRec)] "Acme" none (some "long desc")
          none "t").1.take 1) ∧
    List.Forall₂ projNonDestructive
      [({ name := some "P", organization_id := some 1 } : ProjRec)]
      ((upsert_project [({ name := some "P", organization_id := some 1 } : ProjRec)]
          "P" (some "long desc") none 1 "t").1.take 1) :=
  upsert_nondestructive [{ name := some "Acme" }] "Acme" none (some "long desc")
    none "t" [{ name := some "P", organization_id := some 1 }] "P"
    (some "long desc") none 1 "t"

/-- Claim C10. Each upsert either rewrites exactly one existing record in place
(same position, every other record untouched, the record's id unchanged) or
appends exactly one new record at the tail whose id is the maximum existing id
(0 for records without one, 0 for an empty list) plus 1; it never deletes or
reorders records. -/
theorem upsert_frame
    (orgs : List OrgRec) (name : String)
    (website description contact_email : Option String) (now : String)
    (ys : List OrgRec) (r : OrgRec)
    (hOrg : upsert_org orgs name website description contact_email now = (ys, r))
    (projs : List ProjRec) (pname : String) (pdesc psrc : Option String)
    (oid : Int) (pnow : String) (zs : List ProjRec) (q : ProjRec)
    (hProj : upsert_project projs pname pdesc psrc oid pnow = (zs, q)) :
    ((∃ as b cs, orgs = as ++ b :: cs ∧ ys = as ++ r :: cs ∧
        r.organization_id = b.organization_id) ∨
      (ys = orgs ++ [r] ∧
        r.organization_id =
          some (maxIdOf (orgs.map (fun o => o.organization_id.getD 0)) + 1))) ∧
    ((∃ as b cs, projs = as ++ b :: cs ∧ zs = as ++ q :: cs ∧
        q.project_id = b.project_id) ∨
      (zs = projs ++ [q] ∧
        q.project_id =
          some (maxIdOf (projs.map (fun p => p.project_id.getD 0)) + 1))) := by
  constructor
  · simp only [upsert_org] at hOrg
    cases hW : orgScanW (canonical_site website) name description contact_email orgs with
    | some z =>
      obtain ⟨ys0, r0⟩ := z
      rw [hW] at hOrg
      obtain ⟨hy, hr⟩ := Prod.mk.inj hOrg
      obtain ⟨ns, _, hu⟩ := orgScanW_spec hW
      obtain ⟨as, b, cs, hxs, _, _, hys0, hr0⟩ := updateFirst_spec orgs ys0 r0 hu
      left
      refine ⟨as, b, cs, hxs, ?_, ?_⟩
      · rw [← hy, ← hr, hys0, hr0]
      · rw [← hr, hr0, updW_id]
    | none =>
      rw [hW] at hOrg
      cases hN : orgScanN (canonical_site website) name description contact_email orgs with
      | some z =>
        obtain ⟨ys0, r0⟩ := z
        rw [hN] at hOrg
        obtain ⟨hy, hr⟩ := Prod.mk.inj hOrg
        obtain ⟨_, hu⟩ := orgScanN_spec hN
        obtain ⟨as, b, cs, hxs, _, _, hys0, hr0⟩ := updateFirst_spec orgs ys0 r0 hu
        left
        refine ⟨as, b, cs, hxs, ?_, ?_⟩
        · rw [← hy, ← hr, hys0, hr0]
        · rw [← hr, hr0, updN_id]
      | none =>
        rw [hN] at hOrg
        obtain ⟨hy, hr⟩ := Prod.mk.inj hOrg
        right
        constructor
        · rw [← hy, ← hr]
        · rw [← hr]
          rfl
  · simp only [upsert_project] at hProj
    cases hS : projScanS psrc oid pdesc projs with
    | some z =>
      obtain ⟨ys0, r0⟩ := z
      rw [hS] at hProj
      obtain ⟨hy, hr⟩ := Prod.mk.inj hProj
      obtain ⟨s, _, _, hu⟩ := projScanS_spec hS
      obtain ⟨as, b, cs, hxs, _, _, hys0, hr0⟩ := updateFirst_spec projs ys0 r0 hu
      left
      refine ⟨as, b, cs, hxs, ?_, ?_⟩
      · rw [← hy, ← hr, hys0, hr0]
      · rw [← hr, hr0, updDescP_id]
    | none =>
      rw [hS] at hProj
      cases hN : projScanN psrc pname oid pdesc projs with
      | some z =>
        obtain ⟨ys0, r0⟩ := z
        rw [hN] at hProj
        obtain ⟨hy, hr⟩ := Prod.mk.inj hProj
        obtain ⟨_, hu⟩ := projScanN_spec hN
        obtain ⟨as, b, cs, hxs, _, _, hys0, hr0⟩ := updateFirst_spec projs ys0 r0 hu
        left
        refine ⟨as, b, cs, hxs, ?_, ?_⟩
        · rw [← hy, ← hr, hys0, hr0]
        · rw [← hr, hr0]
          show (updSrcP psrc (updDescP pdesc b)).project_id = b.project_id
          rw [updSrcP_id, updDescP_id]
      | none =>
        rw [hN] at hProj
        obtain ⟨hy, hr⟩ := Prod.mk.inj hProj
        right
        constructor
        · rw [← hy, ← hr]
        · rw [← hr]
          rfl

/-- The record upsert_org creates on an empty list for candidate "Acme". -/
def orgRecW : OrgRec :=
  { organization_id := some 1, name := some "Acme", website := none,
    contact_email := none, description := some "", created_at := some "t" }

/-- The record upsert_project creates on an empty list for candidate "P". -/
def projRecW : ProjRec :=
  { project_id := some 1, name := some "P", description := some "",
    created_at := some "t", organization_id := some 1, source_url := none }

/-- Witness for C10: creating into empty stores appends one record with id 1. -/
theorem upsert_frame_witness :
    ((∃ as b cs, ([] : List OrgRec) = as ++ b :: cs ∧
        [orgRecW] = as ++ orgRecW :: cs ∧
        orgRecW.organization_id = b.organization_id) ∨
      ([orgRecW] = ([] : List OrgRec) ++ [orgRecW] ∧
        orgRecW.organization_id =
          some (maxIdOf (([] : List OrgRec).map
            (fun o => o.organization_id.getD 0)) + 1))) ∧
    ((∃ as b cs, ([] : List ProjRec) = as ++ b :: cs ∧
        [projRecW] = as ++ projRecW :: cs ∧
        projRecW.project_id = b.project_id) ∨
      ([projRecW] = ([] : List ProjRec) ++ [projRecW] ∧
        projRecW.project_id =
          some (maxIdOf (([] : List ProjRec).map
            (fun p => p.project_id.getD 0)) + 1))) :=
  upsert_frame [] "Acme" none none none "t" [orgRecW] orgRecW (by decide)
    [] "P" none none 1 "t" [projRecW] projRecW (by decide)

theorem dropWhile_dropWhile {α : Type _} (p : α → Bool) :
    ∀ l : List α, (l.dropWhile p).dropWhile p = l.dropWhile p := by
  intro l
  induction l with
  | nil => rfl
  | cons a t ih =>
    by_cases ha : p a
    · rw [List.dropWhile_cons_of_pos ha, ih]
    · have ha2 : p a = false := Bool.eq_false_iff.mpr ha
      rw [List.dropWhile_cons_of_neg ha, List.dropWhile_cons_of_neg ha]

theorem head?_dropWhile_false {α : Type _} (p : α → Bool) :
    ∀ (l : List α) (a : α), (l.dropWhile p).head? = some a → p a = false := by
  intro l
  induction l with
  | nil => intro a h; exact Option.noConfusion h
  | cons x t ih =>
    intro a h
    by_cases hx : p x
    · rw [List.dropWhile_cons_of_pos hx] at h
      exact ih a h
    · rw [List.dropWhile_cons_of_neg hx] at h
      have := Option.some.inj h
      rw [← this]
      exact Bool.eq_false_iff.mpr hx

theorem dropWhile_eq_self_of_head {α : Type _} (p : α → Bool) (l : List α)
    (h : ∀ a, l.head? = some a → p a = false) : l.dropWhile p = l := by
  cases l with
  | nil => rfl
  | cons a t =>
    have ha : p a = false := h a rfl
    rw [List.dropWhile_cons_of_neg (by rw [ha]; exact Bool.false_ne_true)]

theorem getLast?_dropWhile {α : Type _} (p : α → Bool) :
    ∀ l : List α, l.dropWhile p ≠ [] → (l.dropWhile p).getLast? = l.getLast? := by
  intro l
  induction l with
  | nil => intro h; exact absurd rfl h
  | cons a t ih =>
    intro h
    by_cases ha : p a
    · rw [List.dropWhile_cons_of_pos ha] at h ⊢
      rw [ih h]
      cases ht : t with
      | nil => rw [ht] at h; exact absurd rfl h
      | cons b u => rw [List.getLast?_cons_cons]
    · rw [List.dropWhile_cons_of_neg ha]

theorem stripList_idem (l : List Char) : stripList (stripList l) = stripList l := by
  set e := fun x : List Char => x.dropWhile wsChar with he
  have hstrip : ∀ x : List Char, stripList x = ((e x).reverse.dropWhile wsChar).reverse := by
    intro x
    rfl
  set u := (e l).reverse.dropWhile wsChar with hu
  have hm : stripList l = u.reverse := hstrip l
  by_cases hunil : u = []
  · rw [hm, hunil]
    rfl
  · have helnil : e l ≠ [] := by
      intro h0
      apply hunil
      rw [hu, h0]
      rfl
    have hlast : u.getLast? = (e l).reverse.getLast? := by
      rw [hu]
      exact getLast?_dropWhile wsChar (e l).reverse hunil
    have hhead : ∀ a, u.reverse.head? = some a → wsChar a = false := by
      intro a ha
      rw [List.head?_reverse, hlast] at ha
      rw [List.getLast?_reverse] at ha
      exact head?_dropWhile_false wsChar l a ha
    have h1 : e u.reverse = u.reverse := dropWhile_eq_self_of_head wsChar u.reverse hhead
    have h2 : (u.reverse).reverse = u := List.reverse_reverse u
    calc stripList (stripList l) = ((e (stripList l)).reverse.dropWhile wsChar).reverse := hstrip _
      _ = ((e u.reverse).reverse.dropWhile wsChar).reverse := by rw [hm]
      _ = ((u.reverse.reverse).dropWhile wsChar).reverse := by rw [h1]
      _ = (u.dropWhile wsChar).reverse := by rw [h2]
      _ = u.reverse := by rw [hu, dropWhile_dropWhile]
      _ = stripList l := hm.symm

theorem toList_mk (l : List Char) : (String.mk l).toList = l := rfl

theorem pyStrip_idem (s : String) : pyStrip (pyStrip s) = pyStrip s := by
  unfold pyStrip
  rw [toList_mk, stripList_idem]

theorem strLower_eq_empty (s : String) : strLower s = "" ↔ s = "" := by
  constructor
  · intro h
    have h2 : lowerChars s.toList = "".toList := congrArg String.toList h
    have h3 : s.toList.map Char.toLower = [] := h2
    have h4 : s.toList = [] := List.map_eq_nil.mp h3
    cases s with
    | mk data => cases h4; rfl
  · intro h
    rw [h]
    rfl

theorem pyStrip_empty : pyStrip "" = "" := rfl

theorem updDescO_idem (d : Option String) (o : OrgRec) :
    updDescO d (updDescO d o) = updDescO d o := by
  unfold updDescO
  split_ifs with h1 h2 h3 <;> simp_all

theorem updEmailO_idem (e : Option String) (o : OrgRec) :
    updEmailO e (updEmailO e o) = updEmailO e o := by
  unfold updEmailO
  split_ifs with h1 h2 h3 <;> simp_all [truthyO]


theorem updDescO_noop (d : Option String) (o : OrgRec)
    (h : (truthyO d && decide ((strOf o.description).length < (strOf d).length)) = false) :
    updDescO d o = o := by
  unfold updDescO
  rw [h]
  rfl

theorem updDescO_cond_self (d : Option String) (o : OrgRec) :
    (truthyO d &&
      decide ((strOf (updDescO d o).description).length < (strOf d).length)) = false := by
  unfold updDescO
  split
  · simp
  · rename_i hc
    exact Bool.eq_false_iff.mpr hc

theorem updEmailO_noop (e : Option String) (o : OrgRec)
    (h : (truthyO e && !truthyO o.contact_email) = false) : updEmailO e o = o := by
  unfold updEmailO
  rw [h]
  rfl

theorem updEmailO_cond_self (e : Option String) (o : OrgRec) :
    (truthyO e && !truthyO (updEmailO e o).contact_email) = false := by
  unfold updEmailO
  split
  · rename_i hc
    simp only [Bool.and_eq_true] at hc
    simp [hc.1]
  · rename_i hc
    exact Bool.eq_false_iff.mpr hc

theorem updNameO_noop (n : String) (o : OrgRec)
    (h : ((n != "") && !truthyO o.name) = false) : updNameO n o = o := by
  unfold updNameO
  rw [h]
  rfl

theorem updNameO_cond_self (n : String) (o : OrgRec) :
    ((n != "") && !truthyO (updNameO n o).name) = false := by
  unfold updNameO
  split
  · rename_i hc
    simp only [Bool.and_eq_true] at hc
    simp [truthyO, hc.1]
  · rename_i hc
    exact Bool.eq_false_iff.mpr hc

theorem updSiteO_noop_of_same (ns : String) (o : OrgRec) (h : o.website = some ns) :
    updSiteO (some ns) o = o := by
  show (if (!truthyO o.website) = true then { o with website := some ns } else o) = o
  split
  · rw [← h]
  · rfl

theorem updSiteO_idem (w : Option String) (o : OrgRec) :
    updSiteO w (updSiteO w o) = updSiteO w o := by
  cases w with
  | none => rfl
  | some ns =>
    by_cases hc : truthyO o.website = true
    · have hnoop : updSiteO (some ns) o = o := by
        simp [updSiteO, hc]
      rw [hnoop, hnoop]
    · have hc2 : truthyO o.website = false := Bool.eq_false_iff.mpr hc
      have hfire : updSiteO (some ns) o = { o with website := some ns } := by
        simp [updSiteO, hc2]
      rw [hfire]
      apply updSiteO_noop_of_same
      rfl

theorem updW_idem (n : String) (d e : Option String) (o : OrgRec) :
    updW n d e (updW n d e o) = updW n d e o := by
  show updNameO n (updEmailO e (updDescO d (updW n d e o))) = updW n d e o
  have hA : updDescO d (updW n d e o) = updW n d e o := by
    apply updDescO_noop
    show (truthyO d && decide ((strOf (updW n d e o).description).length < (strOf d).length)) = false
    rw [show (updW n d e o).description = (updDescO d o).description from by
      unfold updW; rw [updNameO_desc, updEmailO_desc]]
    exact updDescO_cond_self d o
  rw [hA]
  have hB : updEmailO e (updW n d e o) = updW n d e o := by
    apply updEmailO_noop
    rw [show (updW n d e o).contact_email = (updEmailO e (updDescO d o)).contact_email from by
      unfold updW; rw [updNameO_email]]
    exact updEmailO_cond_self e (updDescO d o)
  rw [hB]
  apply updNameO_noop
  exact updNameO_cond_self n (updEmailO e (updDescO d o))

theorem updN_idem (w : Option String) (d e : Option String) (o : OrgRec) :
    updN w d e (updN w d e o) = updN w d e o := by
  show updSiteO w (updEmailO e (updDescO d (updN w d e o))) = updN w d e o
  have hA : updDescO d (updN w d e o) = updN w d e o := by
    apply updDescO_noop
    rw [show (updN w d e o).description = (updDescO d o).description from by
      unfold updN; rw [updSiteO_desc, updEmailO_desc]]
    exact updDescO_cond_self d o
  rw [hA]
  have hB : updEmailO e (updN w d e o) = updN w d e o := by
    apply updEmailO_noop
    rw [show (updN w d e o).contact_email = (updEmailO e (updDescO d o)).contact_email from by
      unfold updN; rw [updSiteO_email]]
    exact updEmailO_cond_self e (updDescO d o)
  rw [hB]
  exact updSiteO_idem w (updEmailO e (updDescO d o))

theorem updW_after_updN (n : String) (w : Option String) (d e : Option String)
    (o : OrgRec) (hname : truthyO o.name = true) :
    updW n d e (updN w d e o) = updN w d e o := by
  show updNameO n (updEmailO e (updDescO d (updN w d e o))) = updN w d e o
  have hA : updDescO d (updN w d e o) = updN w d e o := by
    apply updDescO_noop
    rw [show (updN w d e o).description = (updDescO d o).description from by
      unfold updN; rw [updSiteO_desc, updEmailO_desc]]
    exact updDescO_cond_self d o
  rw [hA]
  have hB : updEmailO e (updN w d e o) = updN w d e o := by
    apply updEmailO_noop
    rw [show (updN w d e o).contact_email = (updEmailO e (updDescO d o)).contact_email from by
      unfold updN; rw [updSiteO_email]]
    exact updEmailO_cond_self e (updDescO d o)
  rw [hB]
  apply updNameO_noop
  rw [show (updN w d e o).name = o.name from by
    unfold updN; rw [updSiteO_name, updEmailO_name, updDescO_name]]
  rw [hname]
  simp

theorem updDescP_noop (d : Option String) (p : ProjRec)
    (h : (truthyO d && decide ((strOf p.description).length < (strOf d).length)) = false) :
    updDescP d p = p := by
  unfold updDescP
  rw [h]
  rfl

theorem updDescP_cond_self (d : Option String) (p : ProjRec) :
    (truthyO d &&
      decide ((strOf (updDescP d p).description).length < (strOf d).length)) = false := by
  unfold updDescP
  split
  · simp
  · rename_i hc
    exact Bool.eq_false_iff.mpr hc

theorem updSrcP_noop_of_same (s : String) (p : ProjRec) (h : p.source_url = some s) :
    updSrcP (some s) p = p := by
  show (if ((s != "") && !truthyO p.source_url) = true
        then { p with source_url := some s } else p) = p
  split
  · rw [← h]
  · rfl

theorem updSrcP_idem (src : Option String) (p : ProjRec) :
    updSrcP src (updSrcP src p) = updSrcP src p := by
  cases src with
  | none => rfl
  | some s =>
    by_cases hc : (((s != "") && !truthyO p.source_url) = true)
    · have hfire : updSrcP (some s) p = { p with source_url := some s } := by
        simp only [updSrcP, if_pos hc]
      rw [hfire]
      apply updSrcP_noop_of_same
      rfl
    · have hnoop : updSrcP (some s) p = p := by
        simp only [updSrcP, if_neg hc]
      rw [hnoop, hnoop]

theorem updSrcDescP_idem (src : Option String) (d : Option String) (p : ProjRec) :
    updSrcP src (updDescP d (updSrcP src (updDescP d p))) =
      updSrcP src (updDescP d p) := by
  have hA : updDescP d (updSrcP src (updDescP d p)) = updSrcP src (updDescP d p) := by
    apply updDescP_noop
    rw [show (updSrcP src (updDescP d p)).description = (updDescP d p).description from
      updSrcP_desc src (updDescP d p)]
    exact updDescP_cond_self d p
  rw [hA]
  exact updSrcP_idem src (updDescP d p)

theorem updDescP_after_both (src : Option String) (d : Option String) (p : ProjRec) :
    updDescP d (updSrcP src (updDescP d p)) = updSrcP src (updDescP d p) := by
  apply updDescP_noop
  rw [show (updSrcP src (updDescP d p)).description = (updDescP d p).description from
    updSrcP_desc src (updDescP d p)]
  exact updDescP_cond_self d p

theorem matchSiteO_updW (ns : String) (n : String) (d e : Option String) (o : OrgRec) :
    matchSiteO ns (updW n d e o) = matchSiteO ns o := by
  unfold matchSiteO
  rw [show (updW n d e o).website = o.website from by
    unfold updW; rw [updNameO_website, updEmailO_website, updDescO_website]]

theorem matchNameO_updN (l : String) (w : Option String) (d e : Option String)
    (o : OrgRec) : matchNameO l (updN w d e o) = matchNameO l o := by
  unfold matchNameO
  rw [show (updN w d e o).name = o.name from by
    unfold updN; rw [updSiteO_name, updEmailO_name, updDescO_name]]

theorem matchNameO_truthy {l : String} {o : OrgRec}
    (h : matchNameO l o = true) (hl : l ≠ "") : truthyO o.name = true := by
  unfold matchNameO at h
  have heq : strLower (pyStrip (strOf o.name)) = l := eq_of_beq h
  rw [truthyO_iff]
  intro h0
  apply hl
  rw [← heq, h0]
  rfl

theorem updN_website (w : Option String) (d e : Option String) (o : OrgRec)
    (h : truthyO o.website = true) : (updN w d e o).website = o.website := by
  unfold updN
  cases w with
  | none => rw [show updSiteO none (updEmailO e (updDescO d o)) =
      updEmailO e (updDescO d o) from rfl, updEmailO_website, updDescO_website]
  | some ns =>
    have h2 : truthyO (updEmailO e (updDescO d o)).website = true := by
      rw [updEmailO_website, updDescO_website]
      exact h
    show (if (!truthyO (updEmailO e (updDescO d o)).website) = true
          then _ else updEmailO e (updDescO d o)).website = o.website
    rw [h2]
    show (updEmailO e (updDescO d o)).website = o.website
    rw [updEmailO_website, updDescO_website]

theorem updN_website_fires (ns : String) (d e : Option String) (o : OrgRec)
    (h : truthyO o.website = false) :
    (updN (some ns) d e o).website = some ns := by
  have h2 : (!truthyO (updEmailO e (updDescO d o)).website) = true := by
    rw [updEmailO_website, updDescO_website, h]
    rfl
  show (if (!truthyO (updEmailO e (updDescO d o)).website) = true
        then { updEmailO e (updDescO d o) with website := some ns }
        else updEmailO e (updDescO d o)).website = some ns
  rw [h2]
  rfl

theorem matchNameP_updBoth (oid : Int) (l : String) (src : Option String)
    (d : Option String) (p : ProjRec) :
    matchNameP oid l (updSrcP src (updDescP d p)) = matchNameP oid l p := by
  unfold matchNameP
  rw [show (updSrcP src (updDescP d p)).name = p.name from by
      rw [updSrcP_name, updDescP_name],
    show (updSrcP src (updDescP d p)).organization_id = p.organization_id from by
      rw [updSrcP_org, updDescP_org]]

theorem matchSrcP_updDescP (oid : Int) (s : String) (d : Option String) (p : ProjRec) :
    matchSrcP oid s (updDescP d p) = matchSrcP oid s p := by
  unfold matchSrcP
  rw [updDescP_src, updDescP_org]

theorem matchNameP_org {oid : Int} {l : String} {p : ProjRec}
    (h : matchNameP oid l p = true) : (p.organization_id == some oid) = true := by
  unfold matchNameP at h
  exact (Bool.and_eq_true .. |>.mp h).1


theorem updSrcP_src_of_truthy (src : Option String) (p : ProjRec)
    (h : truthyO p.source_url = true) : (updSrcP src p).source_url = p.source_url := by
  cases src with
  | none => rfl
  | some s =>
    show (if ((s != "") && !truthyO p.source_url) = true
          then { p with source_url := some s } else p).source_url = p.source_url
    rw [h]
    simp

theorem updSrcP_fires (s : String) (p : ProjRec) (hs : s ≠ "")
    (h : truthyO p.source_url = false) : (updSrcP (some s) p).source_url = some s := by
  have hcond : ((s != "") && !truthyO p.source_url) = true := by
    rw [h]
    simp [hs]
  show (if ((s != "") && !truthyO p.source_url) = true
        then { p with source_url := some s } else p).source_url = some s
  rw [hcond]
  rfl

theorem updDescO_newfield (d : Option String) (x : OrgRec)
    (h : x.description = some (strOf d)) : updDescO d x = x := by
  apply updDescO_noop
  rw [h]
  simp [strOf]

theorem updEmailO_newfield (e : Option String) (x : OrgRec)
    (h : x.contact_email = e) : updEmailO e x = x := by
  apply updEmailO_noop
  rw [h]
  exact Bool.and_not_self _

theorem updNameO_newfield (n : String) (x : OrgRec)
    (hx : x.name = some (pyStrip n)) (hps : pyStrip n ≠ "") : updNameO n x = x := by
  apply updNameO_noop
  rw [hx]
  simp [truthyO, hps]

theorem updW_newOrg (n : String) (d e : Option String) (x : OrgRec)
    (hps : pyStrip n ≠ "") (hd : x.description = some (strOf d))
    (he : x.contact_email = e) (hn : x.name = some (pyStrip n)) :
    updW n d e x = x := by
  unfold updW
  rw [updDescO_newfield d x hd, updEmailO_newfield e x he,
    updNameO_newfield n x hn hps]

theorem updN_newOrg (w : Option String) (d e : Option String) (x : OrgRec)
    (hd : x.description = some (strOf d)) (he : x.contact_email = e)
    (hw : ∀ ns, w = some ns → x.website = some ns) :
    updN w d e x = x := by
  unfold updN
  rw [updDescO_newfield d x hd, updEmailO_newfield e x he]
  cases w with
  | none => rfl
  | some ns => exact updSiteO_noop_of_same ns x (hw ns rfl)

theorem updDescP_idem (d : Option String) (p : ProjRec) :
    updDescP d (updDescP d p) = updDescP d p := by
  unfold updDescP
  split_ifs with h1 h2 h3 <;> simp_all

theorem updDescP_newfield (d : Option String) (x : ProjRec)
    (h : x.description = some (strOf d)) : updDescP d x = x := by
  apply updDescP_noop
  rw [h]
  simp [strOf]

theorem upsert_org_idem (orgs : List OrgRec) (name : String)
    (website description contact_email : Option String) (now now2 : String)
    (hps : pyStrip name ≠ "") :
    upsert_org (upsert_org orgs name website description contact_email now).1
        name website description contact_email now2 =
      upsert_org orgs name website description contact_email now := by
  have hlname : strLower (pyStrip name) ≠ "" :=
    fun h => hps ((strLower_eq_empty _).mp h)
  have hname1 : name ≠ "" := by
    intro h0
    apply hps
    rw [h0]
    rfl
  cases hW : orgScanW (canonical_site website) name description contact_email orgs with
  | some z =>
    obtain ⟨ys, r⟩ := z
    have h1 : upsert_org orgs name website description contact_email now = (ys, r) := by
      simp only [upsert_org, hW]
    rw [h1]
    obtain ⟨ns, hns, hu⟩ := orgScanW_spec hW
    obtain ⟨as, b, cs, hxs, has, hb, hys, hr⟩ := updateFirst_spec orgs ys r hu
    have hb2 : matchSiteO ns (updW name description contact_email b) = true := by
      rw [matchSiteO_updW]
      exact hb
    have hscan2 :
        orgScanW (canonical_site website) name description contact_email ys =
          some (ys, r) := by
      rw [hns]
      show updateFirst (matchSiteO ns) (updW name description contact_email) ys =
        some (ys, r)
      rw [hys, updateFirst_append_none has, updateFirst_cons_true hb2]
      simp only [Option.map_some']
      rw [updW_idem, ← hr]
    simp only [upsert_org, hscan2]
  | none =>
    cases hN : orgScanN (canonical_site website) name description contact_email orgs with
    | some z =>
      obtain ⟨ys, r⟩ := z
      have h1 : upsert_org orgs name website description contact_email now = (ys, r) := by
        simp only [upsert_org, hW, hN]
      rw [h1]
      obtain ⟨hl2, hu⟩ := orgScanN_spec hN
      obtain ⟨as, b, cs, hxs, has, hb, hys, hr⟩ := updateFirst_spec orgs ys r hu
      have hbname : truthyO b.name = true := matchNameO_truthy hb hl2
      have hbn2 :
          matchNameO (strLower (pyStrip name))
            (updN (canonical_site website) description contact_email b) = true := by
        rw [matchNameO_updN]
        exact hb
      have hscanN2 :
          orgScanN (canonical_site website) name description contact_email ys =
            some (ys, r) := by
        unfold orgScanN
        rw [if_neg hl2, hys, updateFirst_append_none has, updateFirst_cons_true hbn2]
        simp only [Option.map_some']
        rw [updN_idem, ← hr]
      cases hnorm : canonical_site website with
      | none =>
        have hW2 : orgScanW (canonical_site website) name description contact_email ys =
            none := by
          rw [hnorm]
          rfl
        simp only [upsert_org, hW2, hscanN2]
      | some ns =>
        have hallW : ∀ a ∈ orgs, matchSiteO ns a = false := by
          apply updateFirst_forall_of_none orgs (f := updW name description contact_email)
          have h0 := hW
          rw [hnorm] at h0
          exact h0
        cases hc : matchSiteO ns (updN (canonical_site website) description contact_email b) with
        | true =>
          have hscanW2 :
              orgScanW (canonical_site website) name description contact_email ys =
                some (ys, r) := by
            rw [hnorm]
            show updateFirst (matchSiteO ns) (updW name description contact_email) ys =
              some (ys, r)
            have hasW : ∀ a ∈ as, matchSiteO ns a = false := by
              intro a ha
              exact hallW a (by rw [hxs]; exact List.mem_append_left _ ha)
            rw [hys, updateFirst_append_none hasW, updateFirst_cons_true hc]
            simp only [Option.map_some']
            rw [updW_after_updN _ _ _ _ _ hbname, ← hr]
          simp only [upsert_org, hscanW2]
        | false =>
          have hscanW2 :
              orgScanW (canonical_site website) name description contact_email ys =
                none := by
            rw [hnorm]
            show updateFirst (matchSiteO ns) (updW name description contact_email) ys = none
            apply updateFirst_none_of_forall
            intro a ha
            rw [hys] at ha
            rcases List.mem_append.mp ha with hin | hin
            · exact hallW a (by rw [hxs]; exact List.mem_append_left _ hin)
            · rcases List.mem_cons.mp hin with rfl | hin2
              · exact hc
              · exact hallW a
                  (by rw [hxs]; exact List.mem_append_right _ (List.mem_cons_of_mem _ hin2))
          simp only [upsert_org, hscanW2, hscanN2]
    | none =>
      have h1 : upsert_org orgs name website description contact_email now =
          (orgs ++ [newOrgRec orgs name website description contact_email
            (canonical_site website) now],
           newOrgRec orgs name website description contact_email
            (canonical_site website) now) := by
        simp only [upsert_org, hW, hN]
      rw [h1]
      set rec0 := newOrgRec orgs name website description contact_email
        (canonical_site website) now with hrec0
      have hrecname : rec0.name = some (pyStrip name) := by
        show some (if name = "" then "" else pyStrip name) = some (pyStrip name)
        rw [if_neg hname1]
      have hrecdesc : rec0.description = some (strOf description) := rfl
      have hrecemail : rec0.contact_email = contact_email := rfl
      have hallN : ∀ a ∈ orgs, matchNameO (strLower (pyStrip name)) a = false := by
        apply updateFirst_forall_of_none orgs
          (f := updN (canonical_site website) description contact_email)
        have h0 := hN
        unfold orgScanN at h0
        rw [if_neg hlname] at h0
        exact h0
      have hmatchN : matchNameO (strLower (pyStrip name)) rec0 = true := by
        unfold matchNameO
        rw [hrecname]
        show (strLower (pyStrip (pyStrip name)) == strLower (pyStrip name)) = true
        rw [pyStrip_idem]
        exact beq_self_eq_true _
      have hNrec : updN (canonical_site website) description contact_email rec0 = rec0 := by
        apply updN_newOrg _ _ _ _ hrecdesc hrecemail
        intro ns hns
        show (match canonical_site website with
              | some ns2 => some ns2 | none => website) = some ns
        rw [hns]
      have hscanN2 :
          orgScanN (canonical_site website) name description contact_email
            (orgs ++ [rec0]) = some (orgs ++ [rec0], rec0) := by
        unfold orgScanN
        rw [if_neg hlname, updateFirst_append_none hallN, updateFirst_cons_true hmatchN]
        simp only [Option.map_some']
        rw [hNrec]
      cases hnorm : canonical_site website with
      | none =>
        have hW2 : orgScanW (canonical_site website) name description contact_email
            (orgs ++ [rec0]) = none := by
          rw [hnorm]
          rfl
        simp only [upsert_org, hW2, hscanN2]
      | some ns =>
        have hallW : ∀ a ∈ orgs, matchSiteO ns a = false := by
          apply updateFirst_forall_of_none orgs (f := updW name description contact_email)
          have h0 := hW
          rw [hnorm] at h0
          exact h0
        have hrecsite : rec0.website = some ns := by
          show (match canonical_site website with
                | some ns2 => some ns2 | none => website) = some ns
          rw [hnorm]
        have hWrec : updW name description contact_email rec0 = rec0 :=
          updW_newOrg _ _ _ _ hps hrecdesc hrecemail hrecname
        cases hc : matchSiteO ns rec0 with
        | true =>
          have hscanW2 :
              orgScanW (canonical_site website) name description contact_email
                (orgs ++ [rec0]) = some (orgs ++ [rec0], rec0) := by
            rw [hnorm]
            show updateFirst (matchSiteO ns) (updW name description contact_email)
              (orgs ++ [rec0]) = some (orgs ++ [rec0], rec0)
            rw [updateFirst_append_none hallW, updateFirst_cons_true hc]
            simp only [Option.map_some']
            rw [hWrec]
          simp only [upsert_org, hscanW2]
        | false =>
          have hscanW2 :
              orgScanW (canonical_site website) name description contact_email
                (orgs ++ [rec0]) = none := by
            rw [hnorm]
            show updateFirst (matchSiteO ns) (updW name description contact_email)
              (orgs ++ [rec0]) = none
            apply updateFirst_none_of_forall
            intro a ha
            rcases List.mem_append.mp ha with hin | hin
            · exact hallW a hin
            · rcases List.mem_cons.mp hin with rfl | hin2
              · exact hc
              · exact absurd hin2 (List.not_mem_nil a)
          have hscanN2b :
              orgScanN (canonical_site website) name description contact_email
                (orgs ++ [rec0]) = some (orgs ++ [rec0], rec0) := hscanN2
          simp only [upsert_org, hscanW2, hscanN2b]

theorem updSrcDescP_org (src d : Option String) (p : ProjRec) :
    (updSrcDescP src d p).organization_id = p.organization_id := by
  unfold updSrcDescP
  rw [updSrcP_org, updDescP_org]

theorem updSrcDescP_idem2 (src d : Option String) (p : ProjRec) :
    updSrcDescP src d (updSrcDescP src d p) = updSrcDescP src d p := by
  unfold updSrcDescP
  exact updSrcDescP_idem src d p

theorem matchNameP_updSrcDescP (oid : Int) (l : String) (src d : Option String)
    (p : ProjRec) : matchNameP oid l (updSrcDescP src d p) = matchNameP oid l p :=
  matchNameP_updBoth oid l src d p

theorem updSrcDescP_src_truthy (src d : Option String) (p : ProjRec)
    (h : truthyO p.source_url = true) :
    (updSrcDescP src d p).source_url = p.source_url := by
  unfold updSrcDescP
  have h2 : truthyO (updDescP d p).source_url = true := by
    rw [updDescP_src]
    exact h
  rw [updSrcP_src_of_truthy src _ h2, updDescP_src]

theorem updSrcDescP_src_fires (s : String) (d : Option String) (p : ProjRec)
    (hs : s ≠ "") (h : truthyO p.source_url = false) :
    (updSrcDescP (some s) d p).source_url = some s := by
  unfold updSrcDescP
  apply updSrcP_fires
  · exact hs
  · rw [updDescP_src]
    exact h

theorem updDescP_after_updSrcDescP (src d : Option String) (p : ProjRec) :
    updDescP d (updSrcDescP src d p) = updSrcDescP src d p := by
  unfold updSrcDescP
  exact updDescP_after_both src d p

theorem upsert_project_idem (projs : List ProjRec) (name : String)
    (description source_url : Option String) (oid : Int) (now now2 : String)
    (hps : pyStrip name ≠ "") :
    upsert_project (upsert_project projs name description source_url oid now).1
        name description source_url oid now2 =
      upsert_project projs name description source_url oid now := by
  have hlname : strLower (pyStrip name) ≠ "" :=
    fun h => hps ((strLower_eq_empty _).mp h)
  have hname1 : name ≠ "" := by
    intro h0
    apply hps
    rw [h0]
    rfl
  cases hS : projScanS source_url oid description projs with
  | some z =>
    obtain ⟨ys, r⟩ := z
    have h1 : upsert_project projs name description source_url oid now = (ys, r) := by
      simp only [upsert_project, hS]
    rw [h1]
    obtain ⟨s, hsrc, hsne, hu⟩ := projScanS_spec hS
    obtain ⟨as, b, cs, hxs, has, hb, hys, hr⟩ := updateFirst_spec projs ys r hu
    have hb2 : matchSrcP oid s (updDescP description b) = true := by
      rw [matchSrcP_updDescP]
      exact hb
    have hscan2 : projScanS source_url oid description ys = some (ys, r) := by
      rw [hsrc]
      simp only [projScanS]
      rw [if_neg hsne, hys, updateFirst_append_none has, updateFirst_cons_true hb2]
      simp only [Option.map_some']
      rw [updDescP_idem, ← hr]
    simp only [upsert_project, hscan2]
  | none =>
    cases hN : projScanN source_url name oid description projs with
    | some z =>
      obtain ⟨ys, r⟩ := z
      have h1 : upsert_project projs name description source_url oid now = (ys, r) := by
        simp only [upsert_project, hS, hN]
      rw [h1]
      obtain ⟨hl2, hu⟩ := projScanN_spec hN
      obtain ⟨as, b, cs, hxs, has, hb, hys, hr⟩ := updateFirst_spec projs ys r hu
      have horg : (b.organization_id == some oid) = true := matchNameP_org hb
      have hbn2 :
          matchNameP oid (strLower (pyStrip name))
            (updSrcDescP source_url description b) = true := by
        rw [matchNameP_updSrcDescP]
        exact hb
      have hscanN2 :
          projScanN source_url name oid description ys = some (ys, r) := by
        unfold projScanN
        rw [if_neg hl2, hys, updateFirst_append_none has, updateFirst_cons_true hbn2]
        simp only [Option.map_some']
        rw [updSrcDescP_idem2, ← hr]
      cases hsrc : source_url with
      | none =>
        rw [hsrc] at hscanN2
        have hS2 : projScanS none oid description ys = none := rfl
        simp only [upsert_project, hS2, hscanN2]
      | some s =>
        rw [hsrc] at hscanN2
        by_cases hse : s = ""
        · have hS2 : projScanS (some s) oid description ys = none := by
            simp only [projScanS]
            rw [if_pos hse]
          simp only [upsert_project, hS2, hscanN2]
        · have hallS : ∀ p ∈ projs, matchSrcP oid s p = false := by
            apply updateFirst_forall_of_none projs (f := updDescP description)
            have h0 := hS
            rw [hsrc] at h0
            simp only [projScanS] at h0
            rw [if_neg hse] at h0
            exact h0
          cases hbsrc : truthyO b.source_url with
          | true =>
            have hsrcpres : (updSrcDescP source_url description b).source_url =
                b.source_url := updSrcDescP_src_truthy source_url description b hbsrc
            have hmb : matchSrcP oid s (updSrcDescP source_url description b) = false := by
              unfold matchSrcP
              rw [updSrcDescP_org, hsrcpres]
              have := hallS b (by rw [hxs]; exact List.mem_append_right _ (List.mem_cons_self _ _))
              unfold matchSrcP at this
              exact this
            have hS2 : projScanS (some s) oid description ys = none := by
              simp only [projScanS]
              rw [if_neg hse]
              apply updateFirst_none_of_forall
              intro a ha
              rw [hys] at ha
              rcases List.mem_append.mp ha with hin | hin
              · exact hallS a (by rw [hxs]; exact List.mem_append_left _ hin)
              · rcases List.mem_cons.mp hin with rfl | hin2
                · exact hmb
                · exact hallS a
                    (by rw [hxs];
                        exact List.mem_append_right _ (List.mem_cons_of_mem _ hin2))
            simp only [upsert_project, hS2, hscanN2]
          | false =>
            have hfires : (updSrcDescP source_url description b).source_url = some s := by
              rw [hsrc]
              exact updSrcDescP_src_fires s description b hse hbsrc
            have hmb : matchSrcP oid s (updSrcDescP source_url description b) = true := by
              unfold matchSrcP
              rw [updSrcDescP_org, hfires, horg]
              simp [strOf]
            have hasS : ∀ a ∈ as, matchSrcP oid s a = false := by
              intro a ha
              exact hallS a (by rw [hxs]; exact List.mem_append_left _ ha)
            have hS2 : projScanS (some s) oid description ys = some (ys, r) := by
              simp only [projScanS]
              rw [if_neg hse, hys, updateFirst_append_none hasS,
                updateFirst_cons_true hmb]
              simp only [Option.map_some']
              rw [updDescP_after_updSrcDescP, ← hr]
            simp only [upsert_project, hS2]
    | none =>
      have h1 : upsert_project projs name description source_url oid now =
          (projs ++ [newProjRec projs name description source_url oid now],
           newProjRec projs name description source_url oid now) := by
        simp only [upsert_project, hS, hN]
      rw [h1]
      set rec0 := newProjRec projs name description source_url oid now with hrec0
      have hrecname : rec0.name = some (pyStrip name) := by
        show some (if name = "" then "" else pyStrip name) = some (pyStrip name)
        rw [if_neg hname1]
      have hrecdesc : rec0.description = some (strOf description) := rfl
      have hrecsrc : rec0.source_url = source_url := rfl
      have hallN : ∀ p ∈ projs, matchNameP oid (strLower (pyStrip name)) p = false := by
        apply updateFirst_forall_of_none projs
          (f := updSrcDescP source_url description)
        have h0 := hN
        unfold projScanN at h0
        rw [if_neg hlname] at h0
        exact h0
      have hmatchN : matchNameP oid (strLower (pyStrip name)) rec0 = true := by
        unfold matchNameP
        rw [hrecname]
        show ((some oid == some oid) &&
          (strLower (pyStrip (pyStrip name)) == strLower (pyStrip name))) = true
        rw [pyStrip_idem]
        simp
      have hNrec : updSrcDescP source_url description rec0 = rec0 := by
        unfold updSrcDescP
        rw [updDescP_newfield _ _ hrecdesc]
        cases hsrc0 : source_url with
        | none => rfl
        | some s => exact updSrcP_noop_of_same s rec0 (by rw [hrecsrc, hsrc0])
      have hscanN2 :
          projScanN source_url name oid description (projs ++ [rec0]) =
            some (projs ++ [rec0], rec0) := by
        unfold projScanN
        rw [if_neg hlname, updateFirst_append_none hallN, updateFirst_cons_true hmatchN]
        simp only [Option.map_some']
        rw [hNrec]
      cases hsrc : source_url with
      | none =>
        rw [hsrc] at hscanN2
        have hS2 : projScanS none oid description (projs ++ [rec0]) = none := rfl
        simp only [upsert_project, hS2, hscanN2]
      | some s =>
        rw [hsrc] at hscanN2
        by_cases hse : s = ""
        · have hS2 : projScanS (some s) oid description (projs ++ [rec0]) = none := by
            simp only [projScanS]
            rw [if_pos hse]
          simp only [upsert_project, hS2, hscanN2]
        · have hallS : ∀ p ∈ projs, matchSrcP oid s p = false := by
            apply updateFirst_forall_of_none projs (f := updDescP description)
            have h0 := hS
            rw [hsrc] at h0
            simp only [projScanS] at h0
            rw [if_neg hse] at h0
            exact h0
          have hmatchS : matchSrcP oid s rec0 = true := by
            unfold matchSrcP
            rw [show rec0.source_url = some s from by rw [hrecsrc, hsrc]]
            show ((some oid == some oid) && (s == s)) = true
            simp
          have hdescrec : updDescP description rec0 = rec0 :=
            updDescP_newfield _ _ hrecdesc
          have hS2 : projScanS (some s) oid description (projs ++ [rec0]) =
              some (projs ++ [rec0], rec0) := by
            simp only [projScanS]
            rw [if_neg hse, updateFirst_append_none hallS, updateFirst_cons_true hmatchS]
            simp only [Option.map_some']
            rw [hdescrec]
          simp only [upsert_project, hS2]

/-- Claim C9, amended. Both upserts are idempotent whenever the candidate name
is non-empty after stripping: a second call with exactly the same arguments
matches the record the first call updated or created, returns it, and leaves
the list unchanged. (With an empty name the claim fails: website
canonicalization is not idempotent — see the counterexample — and an
empty-name, no-key candidate is re-created.) -/
theorem upsert_idempotent_for_named_candidates
    (orgs : List OrgRec) (name : String)
    (website description contact_email : Option String) (now now2 : String)
    (hn : pyStrip name ≠ "")
    (projs : List ProjRec) (pname : String) (pdesc psrc : Option String)
    (oid : Int) (pnow pnow2 : String) (hp : pyStrip pname ≠ "") :
    (upsert_org (upsert_org orgs name website description contact_email now).1
        name website description contact_email now2 =
      upsert_org orgs name website description contact_email now) ∧
    (upsert_project (upsert_project projs pname pdesc psrc oid pnow).1
        pname pdesc psrc oid pnow2 =
      upsert_project projs pname pdesc psrc oid pnow) :=
  ⟨upsert_org_idem orgs name website description contact_email now now2 hn,
   upsert_project_idem projs pname pdesc psrc oid pnow pnow2 hp⟩

/-- Claim C9, counterexample. With an empty name and the website
`http://www.www.x.com`, the created record stores the canonicalized website
`http://www.x.com`, whose canonicalization strips a further `www.`; the second
identical call therefore matches nothing and creates a second record — the
upsert is not idempotent as claimed. -/
theorem upsert_org_duplicates_on_empty_name :
    ((upsert_org [] "" (some "http://www.www.x.com") none none "t").1).length = 1 ∧
    ((upsert_org (upsert_org [] "" (some "http://www.www.x.com") none none "t").1
        "" (some "http://www.www.x.com") none none "t").1).length = 2 := by
  exact ⟨by decide, by decide⟩

/-- Witness for the amended C9 theorem on concrete named candidates. -/
theorem upsert_idempotent_witness :
    (upsert_org (upsert_org [] "Acme" none none none "t").1
        "Acme" none none none "t2" =
      upsert_org [] "Acme" none none none "t") ∧
    (upsert_project (upsert_project [] "P" none none 1 "t").1
        "P" none none 1 "t2" =
      upsert_project [] "P" none none 1 "t") :=
  upsert_idempotent_for_named_candidates [] "Acme" none none none "t" "t2"
    (by decide) [] "P" none none 1 "t" "t2" (by decide)
